import Mathlib

/-!
Verification development for the bsqlparse core: the statement splitter
(src/sqlparse/engine/statement_splitter.py), the grouping engine
(src/sqlparse/engine/grouping_class.py) and the token/tree data model
(src/bsqlparse/sql.py), shallowly embedded as executable Lean functions.

Python behaviours that matter for the claims are modelled explicitly:
fallible operations run in `Except PyErr`, where `PyErr` distinguishes the
exception classes the Python code can raise (IndexError, TypeError,
AttributeError).  Machine-level details that cannot raise are modelled by
total functions with Python's list semantics (negative indices, clamping
slices).

The token-type lattice (`tokens.py`) and the helpers `imt` / `recurse`
(`utils.py`) are part of this repository but are not under src/; they are
modelled from the spec (section 2 and 6: hierarchical lattice, membership
tests are lattice aware, `ForIn` participates in the splitter's keyword
table) and follow upstream sqlparse's documented layout.
-/

namespace BSqlParse

/-- Modelled from the spec: the hierarchical token-type lattice produced by
the (external) lexer.  `tokens.py` is not under src/; the constructors and
the parent relation follow the spec's list in sections 2 and 6:
`Keyword.DML`, `Keyword.DDL`, `Keyword.CTE`, `Keyword.Order`, `ForIn` (a
keyword kind: the spec's depth-delta table applies to it under the header
"only when token_type ∈ Keyword"), `Punctuation`, `Whitespace` (with
`Newline` below it), `Comment.Single`/`Comment.Multiline` below `Comment`,
`Name` (with `Name.Builtin`, `Name.Placeholder`), `String.Symbol` and
`String.Single` below `String` below `Literal`, `Number` (with `Integer`,
`Float`) below `Literal`, `Operator` with `Operator.Comparison`,
`Wildcard`, `Assignment`. -/
inductive TTy where
  | Keyword | KeywordDML | KeywordDDL | KeywordCTE | KeywordOrder | ForIn
  | Punctuation
  | Whitespace | Newline
  | Comment | CommentSingle | CommentMultiline
  | Name | NameBuiltin | NamePlaceholder
  | Literal
  | Str | StrSingle | StrSymbol
  | Number | NumberInteger | NumberFloat
  | Operator | OperatorComparison
  | Wildcard | Assignment
  deriving DecidableEq, Repr

/-- Modelled from the spec: the parent of a type in the token-type lattice
(`None` for the roots). -/
def TTy.parent : TTy → Option TTy
  | .KeywordDML => some .Keyword
  | .KeywordDDL => some .Keyword
  | .KeywordCTE => some .Keyword
  | .KeywordOrder => some .Keyword
  | .ForIn => some .Keyword
  | .Newline => some .Whitespace
  | .CommentSingle => some .Comment
  | .CommentMultiline => some .Comment
  | .NameBuiltin => some .Name
  | .NamePlaceholder => some .Name
  | .Str => some .Literal
  | .StrSingle => some .Str
  | .StrSymbol => some .Str
  | .Number => some .Literal
  | .NumberInteger => some .Number
  | .NumberFloat => some .Number
  | .OperatorComparison => some .Operator
  | _ => none

/-- Modelled from the spec: lattice membership `a in b` ("a token of type
`Keyword.DML` *is* a `Keyword`"): reflexive-transitive closure of
`TTy.parent`.  The chain depth in the modelled lattice is at most 3, so
three parent steps decide membership. -/
def TTy.mem (a b : TTy) : Bool :=
  a = b
    || a.parent = some b
    || (a.parent.bind TTy.parent) = some b
    || ((a.parent.bind TTy.parent).bind TTy.parent) = some b

/-- Token.is_keyword: `ttype in T.Keyword` (sql.py line 38). -/
def TTy.isKeywordTy (a : TTy) : Bool := a.mem .Keyword

/-- Token.is_whitespace: `ttype in T.Whitespace` (sql.py line 39). -/
def TTy.isWsTy (a : TTy) : Bool := a.mem .Whitespace

/-- PyErr enumerates the Python exception classes the embedded code can
raise, plus `gap` for the one modelled-as-unreachable corner (noted at its
use sites) and `fuel` for exhausted recursion fuel in loops whose Python
originals terminate by token-position progress. -/
inductive PyErr where
  | indexError | typeError | attrError | gap | fuel
  deriving DecidableEq, Repr

/-! ## The statement splitter (src/sqlparse/engine/statement_splitter.py)

The splitter's mutable buffer `self.tokens` is a Python list holding
raw `sql.Token`s, closed `sql.Statement` objects, and (while a frame is
open) nested raw Python lists.  `Buf` mirrors exactly those three shapes:
`tk` a token, `st` a closed Statement, `fr` a raw list (open frame). -/

inductive Buf where
  | tk (ty : TTy) (v : String)
  | st (cs : List Buf)
  | fr (cs : List Buf)
  deriving Repr

/-- Python `str.upper()` as a structural map over the characters
(the library upper-casing computes the same string but is compiled by
well-founded recursion and does not reduce in the kernel). -/
def pyUpper (s : String) : String := ⟨s.data.map Char.toUpper⟩

/-- Python `str.startswith(pre)` on the character lists. -/
def pyStartsWithL : List Char → List Char → Bool
  | _, [] => true
  | [], _ :: _ => false
  | c :: cs, d :: ds => c = d && pyStartsWithL cs ds

/-- Python `str.startswith(pre)`. -/
def pyStartsWith (s pre : String) : Bool := pyStartsWithL s.data pre.data

/-- The flag fields of `StatementSplitter._reset` read and written by
`_change_splitlevel` (statement_splitter.py lines 17-24).  Python ints are
modelled as `Int` (`_in_case` can be driven negative by unmatched
`END CASE`). -/
structure SpFlags where
  in_declare : Bool := false
  is_create : Bool := false
  in_case : Int := 0
  infor : Bool := false
  inwhile : Bool := false
  begin_depth : Int := 0
  deriving Repr, DecidableEq

/-- Splitter state: the flags plus the token buffer and `self.level`
(statement_splitter.py lines 26-28). -/
structure SpState where
  flags : SpFlags := {}
  tokens : List Buf := []
  level : Int := 0
  deriving Repr

/-- StatementSplitter._change_splitlevel (statement_splitter.py lines
30-109), translated clause for clause; returns the delta together with the
updated flags.  `unified = value.upper()` is written out as
`pyUpper value` at each use site. -/
def changeSplitlevel (s : SpFlags) (ttype : TTy) (value : String) :
    Int × SpFlags :=
  if ¬ ttype.isKeywordTy then (0, s)
  else if ttype = TTy.KeywordDDL && pyUpper value = "CREATE OR REPLACE" then
    (1, { s with is_create := true })
  else if pyUpper value = "DECLARE" && s.is_create && s.begin_depth = 0 then
    (1, { s with in_declare := true })
  else if pyUpper value = "BEGIN" then
    -- the Python returns 1 on both sides of its inner `if self._is_create`
    (1, { s with begin_depth := s.begin_depth + 1 })
  else if pyUpper value = "END" then
    if s.in_case > 0 then (-1, { s with in_case := s.in_case - 1 })
    else (-1, { s with begin_depth := max 0 (s.begin_depth - 1) })
  else if ((pyStartsWith (pyUpper value) "FOR" && ttype = TTy.ForIn)
            || pyUpper value = "LOOP") && s.is_create && s.begin_depth > 0 then
    if pyStartsWith (pyUpper value) "FOR" then (1, { s with infor := true })
    else if s.infor then (0, { s with infor := false })
    else if s.inwhile then (0, { s with inwhile := false })
    else (1, s)
  else if pyUpper value = "CASE" then
    (1, { s with in_case := s.in_case + 1 })
  else if (pyUpper value = "IF" || pyUpper value = "WHILE")
            && s.is_create && s.begin_depth > 0 then
    if pyUpper value = "WHILE" then (1, { s with inwhile := true })
    else (1, s)
  else if pyUpper value = "END CASE" then
    (-1, { s with in_case := s.in_case - 1 })
  else if pyUpper value = "END IF" || pyUpper value = "END WHILE"
            || pyUpper value = "END LOOP" then
    (-1, s)
  else (0, s)

/-- The walk shared by `add_new_token_array_at`, `append_token_at_depth`
and `process_list_at_depth` (statement_splitter.py lines 159-182):
`temp = temp[len(temp) - 1]` descended `d` times, then an action on the
list reached.  Descending requires the last element to be a raw Python
list: on an empty list Python raises IndexError; `len(...)` of a
`sql.Token` or `sql.Statement` raises TypeError (neither defines
`__len__`, both definitions are commented out in sql.py). -/
def walkLast (act : List Buf → Except PyErr (List Buf)) :
    Nat → List Buf → Except PyErr (List Buf)
  | 0, ts => act ts
  | d + 1, ts =>
    match ts.getLast? with
    | some (Buf.fr c) => do
        let c' ← walkLast act d c
        .ok (ts.dropLast ++ [Buf.fr c'])
    | some _ => .error .typeError
    | none => .error .indexError

/-- The append performed at the end of `append_token_at_depth`. -/
def appendAct (tok : Buf) (l : List Buf) : Except PyErr (List Buf) :=
  .ok (l ++ [tok])

/-- The append performed at the end of `add_new_token_array_at`. -/
def newArrAct (l : List Buf) : Except PyErr (List Buf) :=
  .ok (l ++ [Buf.fr []])

/-- StatementSplitter.append_token_at_depth (lines 167-173).  The Python
loop runs `range(depth + 1)`: with `depth + 1 <= 0` the loop body never
runs and the token is silently dropped. -/
def appendTokenAtDepth (depth : Int) (tok : Buf) (ts : List Buf) :
    Except PyErr (List Buf) :=
  if depth + 1 ≤ 0 then .ok ts
  else walkLast (appendAct tok) depth.toNat ts

/-- StatementSplitter.add_new_token_array_at (lines 159-165): with
`depth <= 0` the `range(depth)` loop body never runs; otherwise descend
`depth - 1` times and append a fresh empty list. -/
def addNewTokenArrayAt (depth : Int) (ts : List Buf) :
    Except PyErr (List Buf) :=
  if depth ≤ 0 then .ok ts
  else walkLast newArrAct (depth - 1).toNat ts

mutual

/-- Buf contains a raw Python list somewhere (used to model what
`sql.Statement(tokens)` does: `TokenList.__init__` sets `parent` on every
direct child and stringifies via `flatten()`; a raw list anywhere in the
tree raises AttributeError). -/
def Buf.hasFr : Buf → Bool
  | .tk _ _ => false
  | .st cs => hasFrL cs
  | .fr _ => true

/-- A raw Python list somewhere in a list of buffer nodes. -/
def hasFrL : List Buf → Bool
  | [] => false
  | b :: bs => b.hasFr || hasFrL bs

end

/-- sql.Statement(tokens) on a list argument (sql.py lines 168-172): sets
child parents and stringifies through `flatten`; raises if a raw Python
list is anywhere below. -/
def mkStatement (cs : List Buf) : Except PyErr Buf :=
  if hasFrL cs then .error .attrError else .ok (Buf.st cs)

/-- The pop-wrap-append action of `process_list_at_depth` (lines 175-182):
`temp.append(sql.Statement(temp.pop()))`.  Popping an empty list raises
IndexError.  Popping a `sql.Statement` or a `sql.Token` instead of a raw
list would not raise immediately in Python (a Statement is iterable); that
path is unreachable under the buffer invariant proved below and is
modelled as the distinguished `gap` error. -/
def procAct (l : List Buf) : Except PyErr (List Buf) :=
  match l.getLast? with
  | some (Buf.fr c) => do
      let s ← mkStatement c
      .ok (l.dropLast ++ [s])
  | some _ => .error .gap
  | none => .error .indexError

/-- StatementSplitter.process_list_at_depth (lines 175-182): descend
`depth - 1` times, then pop the list reached and wrap it as a
Statement. -/
def processListAtDepth (depth : Int) (ts : List Buf) :
    Except PyErr (List Buf) :=
  if depth ≤ 0 then .ok ts
  else walkLast procAct (depth - 1).toNat ts

/-- One iteration of the main loop of StatementSplitter.process
(statement_splitter.py lines 138-150). -/
def splitStep (s : SpState) (ttype : TTy) (value : String) :
    Except PyErr SpState := do
  let (csl, f1) := changeSplitlevel s.flags ttype value
  let lvl := s.level + csl
  if csl = 1 then
    let ts ← addNewTokenArrayAt lvl s.tokens
    let ts ← appendTokenAtDepth lvl (Buf.tk ttype value) ts
    .ok { flags := f1, level := lvl, tokens := ts }
  else if csl = -1 then
    let ts ← appendTokenAtDepth (lvl + 1) (Buf.tk ttype value) s.tokens
    let ts ← processListAtDepth (lvl + 1) ts
    .ok { flags := f1, level := lvl, tokens := ts }
  else
    let ts ← appendTokenAtDepth lvl (Buf.tk ttype value) s.tokens
    .ok { flags := f1, level := lvl, tokens := ts }

/-- The drain loop of StatementSplitter.process (lines 151-153):
`while self.level > 0: self.level += -1; self.process_list_at_depth(self.level + 1)`.
Structured on the number of remaining positive levels. -/
def drainLoop : Nat → Int → List Buf → Except PyErr (Int × List Buf)
  | 0, lvl, ts => .ok (lvl, ts)
  | n + 1, lvl, ts =>
    if lvl > 0 then do
      let ts' ← processListAtDepth lvl ts
      drainLoop n (lvl - 1) ts'
    else .ok (lvl, ts)

/-- StatementSplitter.process (statement_splitter.py lines 111-156) run on
a whole stream: fold the per-token step, drain open frames, then yield one
`sql.Statement(self.tokens)` if the buffer is non-empty.  Returns the list
of yielded statements. -/
def runSplitter (stream : List (TTy × String)) : Except PyErr (List Buf) := do
  let s ← stream.foldlM (fun st p => splitStep st p.1 p.2) {}
  let (_, ts) ← drainLoop s.level.toNat s.level s.tokens
  if ts.isEmpty then .ok []
  else do
    let stmt ← mkStatement ts
    .ok [stmt]

mutual

/-- Flattened leaf sequence of a splitter buffer node (generator
`TokenList.flatten`, sql.py lines 245-255, applied to the splitter's
output shapes). -/
def Buf.leaves : Buf → List (TTy × String)
  | .tk ty v => [(ty, v)]
  | .st cs => leavesL cs
  | .fr cs => leavesL cs

/-- Leaves of a buffer list, in order. -/
def leavesL : List Buf → List (TTy × String)
  | [] => []
  | b :: bs => b.leaves ++ leavesL bs

end

/-- The whole-run leaf sequence of the splitter's yielded statements. -/
def leavesOut (out : List Buf) : List (TTy × String) := leavesL out

/-- The invariant shape of the splitter's buffer: frames (raw Python
lists) occur only as a trailing chain of the given height, everything
beside the chain is frame free. -/
def wfB : List Buf → Nat → Bool
  | ts, 0 => !hasFrL ts
  | ts, n + 1 =>
    match ts.getLast? with
    | some (Buf.fr c) => !hasFrL ts.dropLast && wfB c n
    | _ => false

/-- The state part of one splitter step: flags updated by
`_change_splitlevel`, level shifted by the returned delta, buffer kept. -/
def pureStep (s : SpState) (ty : TTy) (v : String) : SpState :=
  { s with flags := (changeSplitlevel s.flags ty v).2,
           level := s.level + (changeSplitlevel s.flags ty v).1 }

/-- The splitter's state machine run without the token buffer, recording
that every intermediate `self.level` (after each token) stays
nonnegative. -/
def levelsNonneg : SpState → List (TTy × String) → Bool
  | _, [] => true
  | s, (ty, v) :: rest =>
    decide (0 ≤ (pureStep s ty v).level) && levelsNonneg (pureStep s ty v) rest


/-! ## The token tree (src/bsqlparse/sql.py)

`Node` models `sql.Token` (leaf) and the `sql.TokenList` subclasses
(groups).  A group's class is its `GKind`.  Parent pointers are implicit
in the tree; the annotated model for the parent-consistency claim is
separate (`ANode` below). -/

/-- The `sql.TokenList` subclasses of sql.py (plus `TokenListPlain` for a
plain `sql.TokenList`, which `align_comments` constructs, and `ExitCond`
for `Exit.Condition`). -/
inductive GKind where
  | Statement | Identifier | IdentifierList | Parenthesis | SquareBrackets
  | OpenLoopTag | Case | If | Select | DMLOperation | For | Begin | Exit
  | Open | Where | Union | Function | FunctionParam | FunctionHeading
  | ProcedureHeading | PackageHeading | Package | ReturnType | CursorDef
  | Exceptions | NotFound | DeclareSection | DataType | FunctionBlock
  | ProcedureBlock | Comparison | Operation | Assignment | Comment
  | Transaction | TokenListPlain | ExitCond
  deriving DecidableEq, Repr

/-- A tree node: `sql.Token` leaf or a typed `sql.TokenList` group. -/
inductive Node where
  | tok (ty : TTy) (v : String)
  | grp (k : GKind) (cs : List Node)
  deriving Repr

/-- Token.is_group / TokenList.is_group. -/
def Node.isGroup : Node → Bool
  | .tok _ _ => false
  | .grp _ _ => true

/-- Token.is_whitespace (`ttype in T.Whitespace`); a TokenList has
`ttype = None` and is never whitespace. -/
def Node.isWs : Node → Bool
  | .tok ty _ => ty.isWsTy
  | .grp _ _ => false

/-- isinstance(token, cls) for a single TokenList subclass.  The sql.py
variants do not inherit from one another (`Block` is abstract and only
`FunctionBlock`/`ProcedureBlock` instantiate it), so instance tests are
kind equality. -/
def Node.isKind (n : Node) (k : GKind) : Bool :=
  match n with
  | .tok _ _ => false
  | .grp k' _ => k' = k

/-- isinstance(token, tuple_of_classes). -/
def Node.isKindIn (n : Node) (ks : List GKind) : Bool :=
  ks.any n.isKind

mutual

/-- TokenList.flatten (sql.py lines 245-255): depth-first leaf
sequence. -/
def Node.flat : Node → List (TTy × String)
  | .tok ty v => [(ty, v)]
  | .grp _ cs => flatL cs

/-- Flattened leaves of a list of nodes. -/
def flatL : List Node → List (TTy × String)
  | [] => []
  | n :: ns => n.flat ++ flatL ns

end

/-- TokenList.__str__ (sql.py lines 174-175): the concatenated values of
the flattened leaves.  For a leaf it is its value.  (Python stores a
group's `value` at construction time; every reader the embedded passes
reach sees a freshly computed value — `group_tokens` refreshes it on
extension — so the current flattening is used.) -/
def Node.pyValue : Node → String
  | .tok _ v => v
  | .grp _ cs => String.join ((flatL cs).map Prod.snd)

/-- Token.normalized (sql.py line 40): upper-cased for keywords; a
TokenList's normalized is its value (its `ttype` is None, not a
keyword). -/
def Node.normalized : Node → String
  | .tok ty v => if ty.isKeywordTy then pyUpper v else v
  | .grp k cs => Node.pyValue (.grp k cs)

/-- Token.ttype, None for groups. -/
def Node.ttype? : Node → Option TTy
  | .tok ty _ => some ty
  | .grp _ _ => none

/-- Modelled from the spec (the regex in `For.M_OPEN`;  the lexer rules
are external): one character of `\w`. -/
def isWordChar (c : Char) : Bool :=
  c.isAlpha || c.isDigit || c = '_'

/-- `re.search(r"FOR\s+\w+\s+IN\b", s)` at one start position.  The
character classes of the pattern are pairwise disjoint, so the greedy
match needs no backtracking. -/
def forInAt : List Char → Bool
  | 'F' :: 'O' :: 'R' :: rest =>
    let r1 := rest.dropWhile Char.isWhitespace
    if r1.length = rest.length then false
    else
      let r2 := r1.dropWhile isWordChar
      if r2.length = r1.length then false
      else
        let r3 := r2.dropWhile Char.isWhitespace
        if r3.length = r2.length then false
        else
          match r3 with
          | 'I' :: 'N' :: r4 =>
            match r4 with
            | [] => true
            | c :: _ => ¬ isWordChar c
          | _ => false
  | _ => false

/-- `re.search` of the `For.M_OPEN` pattern anywhere in the string. -/
def forInSearch (s : String) : Bool :=
  s.data.tails.any forInAt

/-- A `(ttype, values, regex)` matcher, the argument shape of
`Token.match` as used by the `M_OPEN`/`M_CLOSE`/`M_MIDDLE` descriptors.
The descriptors' optional fourth component `ignorecase` only affects the
regex flag, and the only regex matcher in the pipeline (`For.M_OPEN`) is
on a keyword type, which forces ignore-case already, so it is not
carried. -/
structure MSpec where
  ty : TTy
  vals : List String
  regex : Bool := false

/-- Token.match (sql.py lines 70-102): the token type must be exactly
(`is`) the given one — so a `Keyword.DML` token does not match a
`T.Keyword` spec here — and the normalized value must be among the given
values (upper-cased for keywords; the one regex pattern used by the
engine is `For.M_OPEN`).  A TokenList has `ttype = None` and never
matches. -/
def Node.matchM (n : Node) (m : MSpec) : Bool :=
  match n with
  | .grp _ _ => false
  | .tok ty _ =>
    if ty ≠ m.ty then false
    else if m.regex then forInSearch n.normalized
    else if ty.isKeywordTy then (m.vals.map pyUpper).contains n.normalized
    else m.vals.contains n.normalized

/-- Any of several matchers (`Token.match` OR-ed, as in `imt`'s `m` and
the list-valued `M_CLOSE` descriptors). -/
def Node.matchAny (n : Node) (ms : List MSpec) : Bool :=
  ms.any n.matchM

/-- Modelled from the spec: `utils.imt(token, i, m, t)` (utils.py is not
under src/): token is None → False; else instance of one of `i`, or
matching one of `m`, or its ttype lattice-below one of `t`.  A group's
`None` ttype is in no type. -/
def imt (n? : Option Node) (i : List GKind) (m : List MSpec) (t : List TTy)
    : Bool :=
  match n? with
  | none => false
  | some n =>
    n.isKindIn i || n.matchAny m ||
      (match n.ttype? with
       | some ty => t.any (fun tt => ty.mem tt)
       | none => false)

/-! ## Python list helpers

Python list indexing and slicing over `List Node`: negative indices wrap
from the end, slice endpoints clamp. -/

/-- Normalize a Python slice endpoint against a length. -/
def pyNormSlice (len : Nat) (i : Int) : Nat :=
  if i < 0 then (len + i).toNat else min i.toNat len

/-- Python `l[a:b]`. -/
def pySlice (ts : List Node) (a b : Int) : List Node :=
  (ts.take (pyNormSlice ts.length b)).drop (pyNormSlice ts.length a)

/-- Python `l[a:b] = r` (for `b < a` the deletion range is empty and `r`
is inserted at `a`). -/
def pySliceAssign (ts : List Node) (a b : Int) (r : List Node) :
    List Node :=
  let s := pyNormSlice ts.length a
  let e := max s (pyNormSlice ts.length b)
  ts.take s ++ r ++ ts.drop e

/-- Python `del l[a:b]`. -/
def pyDelSlice (ts : List Node) (a b : Int) : List Node :=
  pySliceAssign ts a b []

/-- Python `l[i]` with IndexError. -/
def pyGet (ts : List Node) (i : Int) : Except PyErr Node :=
  let j : Int := if i < 0 then (ts.length : Int) + i else i
  if h : 0 ≤ j ∧ j < ts.length then
    .ok (ts.get ⟨j.toNat, by omega⟩)
  else .error .indexError

/-- The in-list position a valid Python index refers to. -/
def pyPos (len : Nat) (i : Int) : Nat :=
  (if i < 0 then (len : Int) + i else i).toNat

/-! ## TokenList search primitives (sql.py lines 266-356) -/

/-- TokenList._token_matching, forward: first index-token pair in
`enumerate(self.tokens[start:end], start=start)` satisfying the
predicate.  Note Python numbers the slice from the raw `start` value. -/
def tokenMatchingFwd (p : Node → Bool) (ts : List Node) (start : Int)
    (stop : Option Int) : Option (Int × Node) :=
  let sub := pySlice ts start (stop.getD ts.length)
  let rec go (i : Int) : List Node → Option (Int × Node)
    | [] => none
    | n :: ns => if p n then some (i, n) else go (i + 1) ns
  go start sub

/-- TokenList._token_matching, reverse: scan `range(start - 2, -1, -1)`
indexing `self.tokens[idx]` (an index at or beyond the length raises
IndexError; the callers stay in range). -/
def tokenMatchingRev (p : Node → Bool) (ts : List Node) (start : Int) :
    Except PyErr (Option (Int × Node)) :=
  let rec go : Nat → Except PyErr (Option (Int × Node))
    | 0 => .ok none
    | j + 1 => do
      let n ← pyGet ts j
      if p n then .ok (some ((j : Int), n)) else go j
  if start - 2 < 0 then .ok none
  else go ((start - 2).toNat + 1)

/-- The skip predicate of token_first / token_next / token_prev
(sql.py lines 288-351): not (whitespace when skipping whitespace, or a
comment token or Comment group when skipping comments).  Comments are recognized
as `imt(tk, t=T.Comment, i=Comment)`. -/
def notWsCm (skipWs skipCm : Bool) (n : Node) : Bool :=
  ¬ ((skipWs && n.isWs)
      || (skipCm && imt (some n) [GKind.Comment] [] [TTy.Comment]))

/-- TokenList.token_first (sql.py lines 288-300), also returning the
index it stopped at (Python recovers the index by identity via
`token_index`). -/
def tokenFirstIdx (ts : List Node) (skipWs skipCm : Bool) :
    Option (Int × Node) :=
  tokenMatchingFwd (notWsCm skipWs skipCm) ts 0 none

/-- TokenList.token_next (sql.py lines 339-351). -/
def tokenNext (ts : List Node) (idx? : Option Int)
    (skipWs : Bool := true) (skipCm : Bool := false) :
    Option (Int × Node) :=
  match idx? with
  | none => none
  | some idx => tokenMatchingFwd (notWsCm skipWs skipCm) ts (idx + 1) none

/-- TokenList.token_prev (sql.py lines 329-336) =
token_next(..., _reverse=True). -/
def tokenPrev (ts : List Node) (idx? : Option Int)
    (skipWs : Bool := true) (skipCm : Bool := false) :
    Except PyErr (Option (Int × Node)) :=
  match idx? with
  | none => .ok none
  | some idx => tokenMatchingRev (notWsCm skipWs skipCm) ts (idx + 1)

/-- TokenList.token_last (sql.py lines 302-314): reverse scan from
`len(self.tokens) + 1`. -/
def tokenLast (ts : List Node) (skipWs skipCm : Bool) :
    Except PyErr (Option (Int × Node)) :=
  tokenMatchingRev (notWsCm skipWs skipCm) ts ((ts.length : Int) + 1)

/-- TokenList.token_next_by (sql.py lines 316-319):
`_token_matching(imt(·, i, m, t), idx + 1, end)`. -/
def tokenNextBy (ts : List Node) (i : List GKind) (m : List MSpec)
    (t : List TTy) (idx : Int := -1) (stop : Option Int := none) :
    Option (Int × Node) :=
  tokenMatchingFwd (fun tk => imt (some tk) i m t) ts (idx + 1) stop

/-- TokenList.token_not_matching (sql.py lines 321-324). -/
def tokenNotMatching (p : Node → Bool) (ts : List Node) (idx : Int) :
    Option (Int × Node) :=
  tokenMatchingFwd (fun tk => ¬ p tk) ts idx none

/-- isinstance of a group of kind `k'` against the class `cls` named by a
kind: the sql.py variants do not subclass one another, and the class
`sql.TokenList` itself (under which every group falls) is named by
`TokenListPlain`. -/
def pyIsinstance (k' cls : GKind) : Bool :=
  k' = cls || cls = GKind.TokenListPlain

/-! ## TokenList.group_tokens (sql.py lines 358-386) -/

/-- TokenList.group_tokens: splice children `[start..end]` (inclusive if
`include_end`) into a new group of kind `k`, or extend the group already
sitting at `start`.  Returns the new children list together with the
created/extended group and the list position where it sits.  A `None`
`end` raises TypeError at `end + include_end`; an invalid `start` raises
IndexError. -/
def groupTokens (cs : List Node) (k : GKind) (start : Int)
    (end? : Option Int) (includeEnd : Bool := true)
    (extend : Bool := false) :
    Except PyErr (List Node × Nat × Node) := do
  let startTok ← pyGet cs start
  let endIdx : Int ← match end? with
    | none => .error .typeError
    | some e => pure (e + (if includeEnd then 1 else 0))
  match startTok with
  | .grp k' sub =>
    if extend && pyIsinstance k' k then
      let subtokens := pySlice cs (start + 1) endIdx
      let grp := Node.grp k' (sub ++ subtokens)
      let pos := pyPos cs.length start
      let cs' := pyDelSlice (cs.set pos grp) (start + 1) endIdx
      .ok (cs', pos, grp)
    else
      let subtokens := pySlice cs start endIdx
      let grp := Node.grp k subtokens
      .ok (pySliceAssign cs start endIdx [grp], pyNormSlice cs.length start,
        grp)
  | _ =>
    let subtokens := pySlice cs start endIdx
    let grp := Node.grp k subtokens
    .ok (pySliceAssign cs start endIdx [grp], pyNormSlice cs.length start,
      grp)

/-! ## The grouping engine (src/sqlparse/engine/grouping_class.py)

Each pass maps the statement tree to a new tree in `Except PyErr`.  The
`while` loops driven by `token_next_by` carry recursion fuel (`FUEL`);
their Python originals terminate by index progress, and the concrete
evaluations below stay far below the bound. -/

/-- Recursion fuel for the pass loops. -/
def FUEL : Nat := 64

mutual

/-- Modelled from the spec: the `recurse(*cls)` decorator of utils.py
(not under src/): descend into every group child that is not an instance
of the skipped classes, then apply the pass body to this node's children
(spec section 9: "each pass auto-descends into child groups unless
already of the target variant"). -/
def recurseGo (skip : List GKind)
    (f : GKind → List Node → Except PyErr (List Node)) :
    Node → Except PyErr Node
  | .tok ty v => .ok (.tok ty v)
  | .grp k cs => do
    let cs' ← recurseGoL skip f cs
    let cs'' ← f k cs'
    .ok (.grp k cs'')

/-- Children traversal for `recurseGo`. -/
def recurseGoL (skip : List GKind)
    (f : GKind → List Node → Except PyErr (List Node)) :
    List Node → Except PyErr (List Node)
  | [] => .ok []
  | n :: ns => do
    let n' ← match n with
      | .grp k' cs' =>
        if skip.contains k' then .ok (Node.grp k' cs')
        else recurseGo skip f (.grp k' cs')
      | .tok ty v => .ok (.tok ty v)
    let ns' ← recurseGoL skip f ns
    .ok (n' :: ns')

end

/-- The `M_OPEN` matcher of the classes handled by `_group_matching`
(sql.py class constants). -/
def gmOpenSpec : GKind → MSpec
  | .Parenthesis => ⟨.Punctuation, ["("], false⟩
  | .SquareBrackets => ⟨.Punctuation, ["["], false⟩
  | .OpenLoopTag => ⟨.OperatorComparison, ["<<"], false⟩
  | .Case => ⟨.Keyword, ["CASE"], false⟩
  | .If => ⟨.Keyword, ["IF"], false⟩
  | .Begin => ⟨.Keyword, ["BEGIN"], false⟩
  | .DMLOperation => ⟨.KeywordDML, ["INSERT", "UPDATE", "DELETE"], false⟩
  | .Exit => ⟨.Keyword, ["EXIT"], false⟩
  | .Open => ⟨.Keyword, ["OPEN"], false⟩
  | _ => ⟨.Punctuation, [], false⟩

/-- The `M_CLOSE` matcher of the classes handled by `_group_matching`. -/
def gmCloseSpec : GKind → MSpec
  | .Parenthesis => ⟨.Punctuation, [")"], false⟩
  | .SquareBrackets => ⟨.Punctuation, ["]"], false⟩
  | .OpenLoopTag => ⟨.OperatorComparison, [">>"], false⟩
  | .Case => ⟨.Keyword, ["END", "END CASE"], false⟩
  | .If => ⟨.Keyword, ["END IF"], false⟩
  | .Begin => ⟨.Keyword, ["END"], false⟩
  | .DMLOperation => ⟨.Punctuation, [";"], false⟩
  | .Exit => ⟨.Punctuation, [";"], false⟩
  | .Open => ⟨.Punctuation, [";"], false⟩
  | _ => ⟨.Punctuation, [], false⟩

mutual

/-- grouping._group_matching (grouping_class.py lines 21-54) on one
node: recurse into the children of a group. -/
def gmNode (k : GKind) : Node → Node
  | .tok ty v => .tok ty v
  | .grp k' cs => .grp k' (gmLoop k [] [] cs)

/-- The scan of `_group_matching` over one children list.  The loop
enumerates a snapshot while editing in place with an index offset;
since every edit replaces an already-visited span `[open..close]` by one
group, the current list is always `processed ++ rest` with the current
token at index `processed.length`, which is what this recursion
maintains.  Unmatched closers are skipped, unmatched opens are left
alone. -/
def gmLoop (k : GKind) (processed : List Node) (opens : List Nat) :
    List Node → List Node
  | [] => processed
  | t :: rest =>
    if t.isWs then gmLoop k (processed ++ [t]) opens rest
    else if t.isGroup && ¬ t.isKind k then
      gmLoop k (processed ++ [gmNode k t]) opens rest
    else if t.matchM (gmOpenSpec k) then
      gmLoop k (processed ++ [t]) (processed.length :: opens) rest
    else if t.matchM (gmCloseSpec k) then
      match opens with
      | [] => gmLoop k (processed ++ [t]) [] rest
      | o :: os =>
        gmLoop k
          (processed.take o ++ [Node.grp k (processed.drop o ++ [t])]) os
          rest
    else gmLoop k (processed ++ [t]) opens rest

end

/-- group_brackets / group_parenthesis / group_case / group_openlooptag /
group_if / group_begin / group_exit / group_open / group_dml
(grouping_class.py lines 56-69, 113-114, 165-172): `_group_matching`
with the class constants. -/
def gmPass (k : GKind) (n : Node) : Except PyErr Node :=
  .ok (gmNode k n)

/-- The loop body of grouping.group_comments (grouping_class.py lines
334-344). -/
def groupCommentsLoop : Nat → List Node → Int → Except PyErr (List Node)
  | 0, _, _ => .error .fuel
  | fuel + 1, cs, prev =>
    match tokenNextBy cs [] [] [TTy.Comment] prev none with
    | none => .ok cs
    | some (tidx, _) => do
      let cs' ←
        match tokenNotMatching
            (fun tk => imt (some tk) [] [] [TTy.Comment] || tk.isWs)
            cs tidx with
        | none => pure cs
        | some (eidx, _) => do
          let r ← tokenPrev cs (some eidx) false false
          let (cs'', _, _) ← groupTokens cs .Comment tidx (r.map Prod.fst)
          pure cs''
      groupCommentsLoop fuel cs' tidx

/-- grouping.group_comments: recurse-decorated with `sql.Comment`. -/
def groupComments (n : Node) : Except PyErr Node :=
  recurseGo [GKind.Comment] (fun _ cs => groupCommentsLoop FUEL cs (-1)) n

mutual

/-- grouping.group_package (grouping_class.py lines 718-750): scan the
children, recursing into non-Package groups; on a `CREATE OR REPLACE`
(DDL) token followed by a `PACKAGE` keyword the pass regroups through
`tlist.parent`; that branch rewrites the whole statement through the
parent alias and is modelled as the distinguished `gap` error — no
evaluation below reaches it (their inputs contain no package heading). -/
def groupPackage (fuel : Nat) : Node → Except PyErr Node
  | .tok ty v => .ok (.tok ty v)
  | .grp k cs =>
    match fuel with
    | 0 => .error .fuel
    | fuel + 1 => do
      let cs' ← groupPackageScan fuel cs 0
      .ok (.grp k cs')

/-- The child scan of group_package. -/
def groupPackageScan (fuel : Nat) (cs : List Node) (i : Nat) :
    Except PyErr (List Node) :=
  match fuel with
  | 0 => .error .fuel
  | fuel + 1 =>
    match cs.get? i with
    | none => .ok cs
    | some t =>
      if t.isWs then groupPackageScan fuel cs (i + 1)
      else do
        let cs1 ←
          if t.isGroup && ¬ t.isKind .Package then do
            let t' ← groupPackage fuel t
            pure (cs.set i t')
          else pure cs
        if ¬ t.isKind .Package
            && t.matchM ⟨.KeywordDDL, ["CREATE OR REPLACE"], false⟩ then
          match tokenNextBy cs1 [] [⟨.Keyword, ["PACKAGE"], false⟩] []
              (i : Int) none with
          | some _ => .error .gap
          | none => groupPackageScan fuel cs1 (i + 1)
        else groupPackageScan fuel cs1 (i + 1)

end

/-- Which Select closer matched: `none` if no `M_CLOSE` matcher fits,
`some true` for `UNION`/`UNION ALL` (the close index backs up to the
previous non-comment sibling), `some false` for `;`. -/
def selCloseKind (t : Node) : Option Bool :=
  if t.matchM ⟨.Punctuation, [";"], false⟩ then some false
  else if t.matchM ⟨.Keyword, ["UNION"], false⟩ then some true
  else if t.matchM ⟨.Keyword, ["UNION ALL"], false⟩ then some true
  else none

mutual

/-- grouping.group_select (grouping_class.py lines 71-111) on one node:
after the scan, a single leftover open inside a `Parenthesis` is closed
just before the closing bracket. -/
def groupSelect (fuel : Nat) : Node → Except PyErr Node
  | .tok ty v => .ok (.tok ty v)
  | .grp k cs =>
    match fuel with
    | 0 => .error .fuel
    | fuel + 1 => do
      let (cs', opens) ← groupSelectLoop fuel [] [] cs
      match opens with
      | [o] =>
        if k = GKind.Parenthesis then do
          let (cs'', _, _) ←
            groupTokens cs' .Select (o : Int) (some ((cs'.length : Int) - 2))
          .ok (.grp k cs'')
        else .ok (.grp k cs')
      | _ => .ok (.grp k cs')

/-- The scan of group_select; same snapshot discipline as `gmLoop`, with
the `UNION` closers grouping only up to the previous non-comment
sibling, so the closer itself stays. -/
def groupSelectLoop (fuel : Nat) (processed : List Node)
    (opens : List Nat) :
    List Node → Except PyErr (List Node × List Nat)
  | [] => .ok (processed, opens)
  | t :: rest =>
    match fuel with
    | 0 => .error .fuel
    | fuel + 1 =>
      if t.isWs then groupSelectLoop fuel (processed ++ [t]) opens rest
      else if t.isGroup && ¬ t.isKind .Select then do
        let t' ← groupSelect fuel t
        groupSelectLoop fuel (processed ++ [t']) opens rest
      else if t.matchM ⟨.KeywordDML, ["SELECT"], false⟩ then
        groupSelectLoop fuel (processed ++ [t])
          (processed.length :: opens) rest
      else
        match selCloseKind t with
        | none => groupSelectLoop fuel (processed ++ [t]) opens rest
        | some isUnion =>
          match opens with
          | [] => groupSelectLoop fuel (processed ++ [t]) [] rest
          | o :: os =>
            if isUnion then do
              let tidx : Int := processed.length
              let r ← tokenMatchingRev (notWsCm true true) processed
                (tidx + 1)
              let closeIdx? := r.map Prod.fst
              let (cur', _pos, _) ←
                groupTokens (processed ++ [t]) .Select (o : Int) closeIdx?
              -- the closer stays outside the group; everything after it,
              -- including the `UNION` token just appended, is kept
              groupSelectLoop fuel cur' os rest
            else
              groupSelectLoop fuel
                (processed.take o ++ [Node.grp .Select (processed.drop o ++ [t])])
                os rest

end

/-- The `M_OPEN` regex matcher of `For` (sql.py line 856). -/
def forInOpenSpec : MSpec := ⟨.ForIn, ["FOR\\s+\\w+\\s+IN\\b"], true⟩

mutual

/-- grouping.group_for (grouping_class.py lines 116-163) on one node. -/
def groupFor (fuel : Nat) : Node → Except PyErr Node
  | .tok ty v => .ok (.tok ty v)
  | .grp k cs =>
    match fuel with
    | 0 => .error .fuel
    | fuel + 1 => do
      let cs' ← groupForLoop fuel [] [] false cs
      .ok (.grp k cs')

/-- The scan of group_for: a `ForIn` token always opens and sets the
`in_for` flag; a `LOOP` keyword opens only when `in_for` is not pending,
otherwise it clears the flag; `END LOOP` closes. -/
def groupForLoop (fuel : Nat) (processed : List Node) (opens : List Nat)
    (inFor : Bool) : List Node → Except PyErr (List Node)
  | [] => .ok processed
  | t :: rest =>
    match fuel with
    | 0 => .error .fuel
    | fuel + 1 =>
      if t.isWs then groupForLoop fuel (processed ++ [t]) opens inFor rest
      else if t.isGroup && ¬ t.isKind .For then do
        let t' ← groupFor fuel t
        groupForLoop fuel (processed ++ [t']) opens inFor rest
      else if t.matchM forInOpenSpec then
        groupForLoop fuel (processed ++ [t]) (processed.length :: opens)
          true rest
      else if t.matchM ⟨.Keyword, ["LOOP"], false⟩ then
        if ¬ inFor then
          groupForLoop fuel (processed ++ [t]) (processed.length :: opens)
            inFor rest
        else
          groupForLoop fuel (processed ++ [t]) opens false rest
      else if t.matchM ⟨.Keyword, ["END LOOP"], false⟩ then
        match opens with
        | [] => groupForLoop fuel (processed ++ [t]) [] inFor rest
        | o :: os =>
          groupForLoop fuel
            (processed.take o ++ [Node.grp .For (processed.drop o ++ [t])])
            os inFor rest
      else groupForLoop fuel (processed ++ [t]) opens inFor rest

end

/-- The loop body of grouping.group_procedure_heading (grouping_class.py
lines 565-576).  A `PROCEDURE` keyword with nothing after it dereferences
`None.ttype` (AttributeError); a heading whose name is followed by
nothing dereferences `None.value`. -/
def groupProcHeadLoop : Nat → List Node → Int → Except PyErr (List Node)
  | 0, _, _ => .error .fuel
  | fuel + 1, cs, prev =>
    match tokenNextBy cs [] [⟨.Keyword, ["PROCEDURE"], false⟩] [] prev with
    | none => .ok cs
    | some (proid, _) =>
      match tokenNext cs (some proid) true true with
      | none => .error .attrError
      | some (tidx, tok) =>
        if tok.ttype? = some TTy.Name then
          match tokenNext cs (some tidx) true false with
          | none => .error .attrError
          | some (nidx, nx) =>
            if nx.isKind .Parenthesis then do
              let (cs', _, _) ←
                groupTokens cs .ProcedureHeading proid (some nidx)
              groupProcHeadLoop fuel cs' proid
            else if pyUpper nx.pyValue = "IS"
                || pyUpper nx.pyValue = "AS" then do
              let (cs', _, _) ←
                groupTokens cs .ProcedureHeading proid (some tidx)
              groupProcHeadLoop fuel cs' proid
            else groupProcHeadLoop fuel cs proid
        else groupProcHeadLoop fuel cs proid

/-- grouping.group_procedure_heading: recurse-decorated. -/
def groupProcedureHeading (n : Node) : Except PyErr Node :=
  recurseGo [GKind.ProcedureHeading]
    (fun _ cs => groupProcHeadLoop FUEL cs (-1)) n

/-- The `M_CLOSE` matchers of FunctionHeading (sql.py line 714). -/
def funHeadClose : List MSpec :=
  [⟨.Keyword, ["IS", "AS"], false⟩, ⟨.Punctuation, [";"], false⟩,
    ⟨.Punctuation, [","], false⟩]

/-- The loop body of grouping.group_function_heading (grouping_class.py
lines 578-594).  `k` is the kind of the list's own group (Python reaches
it as `next_.parent`). -/
def groupFunHeadLoop (k : GKind) :
    Nat → List Node → Int → Except PyErr (List Node)
  | 0, _, _ => .error .fuel
  | fuel + 1, cs, prev =>
    match tokenNextBy cs [] [⟨.Keyword, ["FUNCTION"], false⟩] [] prev with
    | none => .ok cs
    | some (proid, _) =>
      match tokenNext cs (some proid) true true with
      | none => groupFunHeadLoop k fuel cs proid
      | some (tidx, nto) =>
        if nto.ttype? = some TTy.Name then do
          let first := tokenNext cs (some tidx) true false
          let nidx? ←
            match first with
            | some (nidx, nx) =>
              if nx.isKind .Parenthesis then
                pure ((tokenNext cs (some nidx) true true).map Prod.fst)
              else pure (some nidx)
            | none => pure none
          -- token_next_by(idx=nidx) with nidx = None raises TypeError
          match nidx? with
          | none => .error .typeError
          | some nidx =>
            match tokenNextBy cs [] funHeadClose [] nidx with
            | some (cnidx, _) => do
              let (cs', _, _) ←
                groupTokens cs .FunctionHeading proid (some (cnidx - 1))
              groupFunHeadLoop k fuel cs' proid
            | none =>
              if k = GKind.Parenthesis then do
                let (cs', _, _) ←
                  groupTokens cs .FunctionHeading proid
                    (some ((cs.length : Int) - 2))
                groupFunHeadLoop k fuel cs' proid
              else groupFunHeadLoop k fuel cs proid
        else groupFunHeadLoop k fuel cs proid

/-- grouping.group_function_heading: recurse-decorated. -/
def groupFunctionHeading (n : Node) : Except PyErr Node :=
  recurseGo [GKind.FunctionHeading]
    (fun k cs => groupFunHeadLoop k FUEL cs (-1)) n

/-- The loop body of grouping.group_functions (grouping_class.py lines
546-563): a Name token directly followed (whitespace skipped) by a
Parenthesis becomes a Function. -/
def groupFunctionsLoop : Nat → List Node → Int → Except PyErr (List Node)
  | 0, _, _ => .error .fuel
  | fuel + 1, cs, prev =>
    match tokenNextBy cs [] [] [TTy.Name] prev with
    | none => .ok cs
    | some (tidx, _) =>
      match tokenNext cs (some tidx) true false with
      | some (nidx, nx) =>
        if nx.isKind .Parenthesis then do
          let (cs', _, _) ← groupTokens cs .Function tidx (some nidx)
          groupFunctionsLoop fuel cs' tidx
        else groupFunctionsLoop fuel cs tidx
      | none => groupFunctionsLoop fuel cs tidx

/-- grouping.group_functions: recurse-decorated. -/
def groupFunctions (n : Node) : Except PyErr Node :=
  recurseGo [GKind.Function] (fun _ cs => groupFunctionsLoop FUEL cs (-1)) n

/-- `Where.M_OPEN` and `Where.M_CLOSE` (sql.py lines 949-951). -/
def whereOpen : MSpec := ⟨.Keyword, ["WHERE"], false⟩

/-- The Where closers. -/
def whereClose : MSpec :=
  ⟨.Keyword, ["ORDER", "GROUP", "LIMIT", "UNION", "EXCEPT", "HAVING",
    "RETURNING", "INTO", "FOR UPDATE"], false⟩

/-- `TokenList._groupable_tokens` (sql.py lines 262-264, 551-553,
567-569): `tokens[1:-1]` for Parenthesis and SquareBrackets, all tokens
otherwise; taking `[-1]` of an empty list raises IndexError.  Returns the
index of the last groupable token. -/
def groupableLastIdx (k : GKind) (cs : List Node) : Except PyErr Int :=
  match k with
  | .Parenthesis | .SquareBrackets =>
    if cs.length ≥ 3 then .ok ((cs.length : Int) - 2)
    else .error .indexError
  | _ =>
    if cs.length ≥ 1 then .ok ((cs.length : Int) - 1)
    else .error .indexError

/-- The loop body of grouping.group_where (grouping_class.py lines
506-520): group from WHERE up to (excluding) the first closer, or to the
last groupable token when there is none. -/
def groupWhereLoop (k : GKind) :
    Nat → List Node → Int → Except PyErr (List Node)
  | 0, _, _ => .error .fuel
  | fuel + 1, cs, prev =>
    match tokenNextBy cs [] [whereOpen] [] prev with
    | none => .ok cs
    | some (tidx, _) => do
      let eidx ←
        match tokenNextBy cs [] [whereClose] [] tidx with
        | none => groupableLastIdx k cs
        | some (ei, _) => pure (ei - 1)
      let (cs', _, _) ← groupTokens cs .Where tidx (some eidx)
      groupWhereLoop k fuel cs' tidx

/-- grouping.group_where: recurse-decorated. -/
def groupWhere (n : Node) : Except PyErr Node :=
  recurseGo [GKind.Where] (fun k cs => groupWhereLoop k FUEL cs (-1)) n

/-- `Union.M_DIVIDER` (sql.py line 956). -/
def unionDivider : MSpec := ⟨.Keyword, ["UNION", "UNION ALL"], false⟩

/-- The loop body of grouping.group_union (grouping_class.py lines
522-532): group previous sibling, divider and next sibling into a Union,
extending a Union already on the left.  A divider with no previous
sibling indexes the list with None (TypeError). -/
def groupUnionLoop : Nat → List Node → Int → Except PyErr (List Node)
  | 0, _, _ => .error .fuel
  | fuel + 1, cs, prev =>
    match tokenNextBy cs [] [unionDivider] [] prev with
    | none => .ok cs
    | some (tidx, _) => do
      let p ← tokenPrev cs (some tidx) true true
      let nxt := tokenNext cs (some tidx) true true
      match p with
      | none => .error .typeError
      | some (pid, ptk) => do
        let ext := ptk.isKind .Union
        let (cs', pos, _) ←
          groupTokens cs .Union pid (nxt.map Prod.fst) true ext
        groupUnionLoop fuel cs' (pos : Int)

/-- grouping.group_union: recurse-decorated. -/
def groupUnion (n : Node) : Except PyErr Node :=
  recurseGo [GKind.Union] (fun _ cs => groupUnionLoop FUEL cs (-1)) n

/-! ## grouping._group (grouping_class.py lines 864-895)

The generic middle-joined matcher.  The Python loop enumerates a
snapshot while editing the live list through an index offset; the model
follows the same snapshot walk with an explicit current list.  When a
grouping consumes tokens beyond the current one, Python revisits the
consumed tokens as stale objects (only updating its `prev_` bookkeeping
with them, exactly as modelled); its in-place recursion into such a
token would follow object identity, which a positional model cannot —
`pySetAt` leaves the list unchanged when the position is gone.  None of
the evaluations below regroups and revisits. -/

mutual

/-- Structural equality of nodes (stands in for Python object identity:
when the node at a position still equals the snapshot token, they are
the same object in the Python run modelled here). -/
def Node.beq : Node → Node → Bool
  | .tok ty v, .tok ty' v' => ty = ty' && v = v'
  | .grp k cs, .grp k' cs' => k = k' && beqL cs cs'
  | .tok _ _, .grp _ _ => false
  | .grp _ _, .tok _ _ => false

/-- List version of `Node.beq`. -/
def beqL : List Node → List Node → Bool
  | [], [] => true
  | a :: as_, b :: bs => Node.beq a b && beqL as_ bs
  | _, _ => false

end

/-- Write the in-place mutation of a snapshot token back at its computed
position, but only while that position still holds the token (once a
grouping has consumed the token, Python's mutation of the stale object
lands inside the already-formed group and is dropped here). -/
def pySetAt (cs : List Node) (i : Int) (old n : Node) : List Node :=
  if 0 ≤ i ∧ i < (cs.length : Int) then
    let p := pyPos cs.length i
    match cs.get? p with
    | some c => if c.beq old then cs.set p n else cs
    | none => cs
  else cs

/-- The post-processing callback shape of `_group`: from the current
list, previous index, current index and next index, the span to group
(and the possibly retagged list, for group_operator's retag). -/
def PostFn : Type :=
  List Node → Int → Int → Option Int →
    Except PyErr (List Node × Int × Option Int)

mutual

/-- grouping._group on one node. -/
def pgroup (fuel : Nat) (k : GKind) (mtch : Node → Bool)
    (validPrev : Option Node → Bool) (validNext : Option Node → Bool)
    (post : PostFn) (ext : Bool) (rec : Bool) :
    Node → Except PyErr Node
  | .tok ty v => .ok (.tok ty v)
  | .grp k' cs =>
    match fuel with
    | 0 => .error .fuel
    | fuel + 1 => do
      let cs' ← pgroupLoop fuel k mtch validPrev validNext post ext rec
        cs 0 0 none cs
      .ok (.grp k' cs')

/-- The snapshot scan of `_group`: `cur` is the live list, `idx` the
snapshot position, `off` the accumulated offset, `pstate` the
`(pidx, prev_)` bookkeeping.  The remaining snapshot is the final
argument. -/
def pgroupLoop (fuel : Nat) (k : GKind) (mtch : Node → Bool)
    (validPrev : Option Node → Bool) (validNext : Option Node → Bool)
    (post : PostFn) (ext : Bool) (rec : Bool)
    (cur : List Node) (idx : Int) (off : Int)
    (pstate : Option (Int × Node)) :
    List Node → Except PyErr (List Node)
  | [] => .ok cur
  | token :: rest =>
    match fuel with
    | 0 => .error .fuel
    | fuel + 1 => do
      let tidx := idx - off
      if token.isWs then
        pgroupLoop fuel k mtch validPrev validNext post ext rec
          cur (idx + 1) off pstate rest
      else do
        let (cur1, t1) ←
          if rec && token.isGroup && ¬ token.isKind k then do
            let t' ← pgroup fuel k mtch validPrev validNext post ext rec
              token
            pure (pySetAt cur tidx token t', t')
          else pure (cur, token)
        if mtch t1 then
          match pstate with
          | some (pidx, prev) =>
            let nres := tokenNext cur1 (some tidx) true false
            if validPrev (some prev) && validNext (nres.map Prod.snd) then do
              let (cur2, from_, to?) ← post cur1 pidx tidx (nres.map Prod.fst)
              let (cur3, _pos, grp) ← groupTokens cur2 k from_ to? true ext
              match to? with
              | some to_ =>
                pgroupLoop fuel k mtch validPrev validNext post ext rec
                  cur3 (idx + 1) (off + (to_ - from_))
                  (some (from_, grp)) rest
              | none => .error .typeError
            else
              pgroupLoop fuel k mtch validPrev validNext post ext rec
                cur1 (idx + 1) off (some (tidx, t1)) rest
          | none =>
            pgroupLoop fuel k mtch validPrev validNext post ext rec
              cur1 (idx + 1) off (some (tidx, t1)) rest
        else
          pgroupLoop fuel k mtch validPrev validNext post ext rec
            cur1 (idx + 1) off (some (tidx, t1)) rest

end

/-- grouping.group_typecasts (grouping_class.py lines 174-185). -/
def groupTypecasts (n : Node) : Except PyErr Node :=
  pgroup FUEL .Identifier
    (fun t => t.matchM ⟨.Punctuation, ["::"], false⟩)
    (fun t => t.isSome) (fun t => t.isSome)
    (fun cs pidx _ nidx? => .ok (cs, pidx, nidx?))
    true true n

/-- grouping.group_period (grouping_class.py lines 187-209): the real
next-token validation happens in `post`, which shrinks the span to the
dot when the next token is not array/function/name-like. -/
def groupPeriod (n : Node) : Except PyErr Node :=
  pgroup FUEL .Identifier
    (fun t => t.matchM ⟨.Punctuation, ["."], false⟩)
    (fun t => imt t [.SquareBrackets, .Identifier, .Function] []
      [.Name, .StrSymbol])
    (fun _ => true)
    (fun cs pidx tidx nidx? => do
      let nx? ← match nidx? with
        | none => pure none
        | some ni => (pyGet cs ni).map some
      if imt nx? [.SquareBrackets, .Function] [] [.Name, .StrSymbol,
          .Wildcard] then
        .ok (cs, pidx, nidx?)
      else .ok (cs, pidx, some tidx))
    true true n

/-- Token.is_keyword of a node (TokenList: False). -/
def Node.isKw : Node → Bool
  | .tok ty _ => ty.isKeywordTy
  | .grp _ _ => false

/-- grouping.group_as (grouping_class.py lines 211-225). -/
def groupAs (n : Node) : Except PyErr Node :=
  pgroup FUEL .Identifier
    (fun t => t.isKw && t.normalized = "AS")
    (fun t? =>
      match t? with
      | none => false
      | some t =>
        (t.normalized = "NULL" || ¬ t.isKw) && ¬ t.isKind .FunctionHeading)
    (fun t? =>
      ¬ imt t? [] [] [.KeywordDML, .KeywordDDL] && t?.isSome)
    (fun cs pidx _ nidx? => .ok (cs, pidx, nidx?))
    true true n

/-- grouping.group_assignment (grouping_class.py lines 227-242): the
span runs to just before the next semicolon when there is one (Python
truthiness: a semicolon at index 0 would not count). -/
def groupAssignment (n : Node) : Except PyErr Node :=
  pgroup FUEL .Assignment
    (fun t => t.matchM ⟨.Assignment, [":="], false⟩)
    (fun t => t.isSome) (fun t => t.isSome)
    (fun cs pidx _ nidx? =>
      match nidx? with
      | none => .error .typeError
      | some ni =>
        match tokenNextBy cs [] [⟨.Punctuation, [";"], false⟩] [] ni with
        | some (si, _) =>
          if si ≠ 0 then .ok (cs, pidx, some (si - 1))
          else .ok (cs, pidx, some ni)
        | none => .ok (cs, pidx, some ni))
    true true n

/-- Token.is_keyword of a possibly missing token. -/
def isKwTok : Option Node → Bool
  | some t => t.isKw
  | none => false

/-- The operand classes of grouping.group_comparison (lines 244-265). -/
def comparisonValid (t? : Option Node) : Bool :=
  imt t? [.Parenthesis, .Function, .Identifier, .Operation] []
      [.Number, .NumberInteger, .NumberFloat, .Str, .StrSingle,
        .StrSymbol, .Name, .NamePlaceholder, .Keyword]
    || isKwTok t?

/-- grouping.group_comparison. -/
def groupComparison (n : Node) : Except PyErr Node :=
  pgroup FUEL .Comparison
    (fun t => t.ttype? = some TTy.OperatorComparison)
    comparisonValid comparisonValid
    (fun cs pidx _ nidx? => .ok (cs, pidx, nidx?))
    false true n

/-- The operand classes of grouping.group_operator (lines 295-312). -/
def operatorValid (t? : Option Node) : Bool :=
  imt t? [.SquareBrackets, .Parenthesis, .Function, .Identifier,
      .Operation] []
    [.Number, .NumberInteger, .NumberFloat, .Str, .StrSingle, .StrSymbol,
      .Name, .NamePlaceholder]

/-- grouping.group_operator: `post` retags the operator token to
`T.Operator` in place (`tlist[tidx].ttype = T.Operator`). -/
def groupOperator (n : Node) : Except PyErr Node :=
  pgroup FUEL .Operation
    (fun t => imt (some t) [] [] [.Operator, .Wildcard])
    operatorValid operatorValid
    (fun cs pidx tidx nidx? => do
      let nd ← pyGet cs tidx
      match nd with
      | .tok _ v =>
        .ok (cs.set (pyPos cs.length tidx) (.tok .Operator v), pidx, nidx?)
      | .grp _ _ => .error .gap)
    false true n

/-- grouping.group_arrays (grouping_class.py lines 276-293):
`recurse=False`, `extend=True`, the span is `(prev, brackets)`. -/
def groupArrays (n : Node) : Except PyErr Node :=
  pgroup FUEL .Identifier
    (fun t => t.isKind .SquareBrackets)
    (fun t? => imt t? [.SquareBrackets, .Identifier, .Function] []
      [.Name, .StrSymbol])
    (fun _ => true)
    (fun cs pidx tidx _ => .ok (cs, pidx, some tidx))
    true false n

/-- grouping.group_identifier_list (grouping_class.py lines 314-332). -/
def groupIdentifierList (n : Node) : Except PyErr Node :=
  pgroup FUEL .IdentifierList
    (fun t => t.matchM ⟨.Punctuation, [","], false⟩)
    (fun t? => imt t? [.Function, .Case, .Identifier, .Comparison,
        .IdentifierList, .Operation, .FunctionParam]
      [⟨.Keyword, ["null", "role"], false⟩]
      [.Number, .NumberInteger, .NumberFloat, .Str, .StrSingle,
        .StrSymbol, .Name, .NamePlaceholder, .Keyword, .Comment,
        .Wildcard])
    (fun t? => imt t? [.Function, .Case, .Identifier, .Comparison,
        .IdentifierList, .Operation, .FunctionParam]
      [⟨.Keyword, ["null", "role"], false⟩]
      [.Number, .NumberInteger, .NumberFloat, .Str, .StrSingle,
        .StrSymbol, .Name, .NamePlaceholder, .Keyword, .Comment,
        .Wildcard])
    (fun cs pidx _ nidx? => .ok (cs, pidx, nidx?))
    true true n

/-- The loop body of grouping.group_identifier (grouping_class.py lines
267-274): wrap every Name / String.Symbol token in an Identifier. -/
def groupIdentifierLoop : Nat → List Node → Int → Except PyErr (List Node)
  | 0, _, _ => .error .fuel
  | fuel + 1, cs, prev =>
    match tokenNextBy cs [] [] [TTy.StrSymbol, TTy.Name] prev with
    | none => .ok cs
    | some (tidx, _) => do
      let (cs', _, _) ← groupTokens cs .Identifier tidx (some tidx)
      groupIdentifierLoop fuel cs' tidx

/-- grouping.group_identifier: recurse-decorated. -/
def groupIdentifier (n : Node) : Except PyErr Node :=
  recurseGo [GKind.Identifier]
    (fun _ cs => groupIdentifierLoop FUEL cs (-1)) n

/-- The loop body of grouping.group_order (grouping_class.py lines
698-706): join an Identifier or number with a following ASC/DESC
keyword.  The pass is not recurse-decorated: it runs on the statement's
own children only. -/
def groupOrderLoop : Nat → List Node → Int → Except PyErr (List Node)
  | 0, _, _ => .error .fuel
  | fuel + 1, cs, prev =>
    match tokenNextBy cs [] [] [TTy.KeywordOrder] prev with
    | none => .ok cs
    | some (tidx, _) => do
      let p ← tokenPrev cs (some tidx) true false
      match p with
      | some (pidx, ptk) =>
        if imt (some ptk) [.Identifier] [] [.Number, .NumberInteger,
            .NumberFloat] then do
          let (cs', _, _) ← groupTokens cs .Identifier pidx (some tidx)
          groupOrderLoop fuel cs' pidx
        else groupOrderLoop fuel cs tidx
      | none => groupOrderLoop fuel cs tidx

/-- grouping.group_order applied to one node (no recursion). -/
def groupOrder : Node → Except PyErr Node
  | .tok ty v => .ok (.tok ty v)
  | .grp k cs => do
    let cs' ← groupOrderLoop FUEL cs (-1)
    .ok (.grp k cs')

/-- The loop body of grouping.group_aliased (grouping_class.py lines
534-544): an alias-capable group or number directly followed by an
Identifier absorbs it. -/
def groupAliasedLoop : Nat → List Node → Int → Except PyErr (List Node)
  | 0, _, _ => .error .fuel
  | fuel + 1, cs, prev =>
    match tokenNextBy cs [.Parenthesis, .Function, .Case, .Identifier,
        .Operation, .Comparison] [] [TTy.Number] prev with
    | none => .ok cs
    | some (tidx, _) =>
      match tokenNext cs (some tidx) true false with
      | some (nidx, nx) =>
        if nx.isKind .Identifier then do
          let (cs', _, _) ←
            groupTokens cs .Identifier tidx (some nidx) true true
          groupAliasedLoop fuel cs' tidx
        else groupAliasedLoop fuel cs tidx
      | none => groupAliasedLoop fuel cs tidx

/-- grouping.group_aliased: recurse-decorated with no skip. -/
def groupAliased (n : Node) : Except PyErr Node :=
  recurseGo [] (fun _ cs => groupAliasedLoop FUEL cs (-1)) n

/-- The loop body of grouping.align_comments (grouping_class.py lines
708-716): a Comment group absorbed into a preceding TokenList of any
kind (`group_tokens` extend with grp_cls `sql.TokenList`). -/
def alignCommentsLoop : Nat → List Node → Int → Except PyErr (List Node)
  | 0, _, _ => .error .fuel
  | fuel + 1, cs, prev =>
    match tokenNextBy cs [.Comment] [] [] prev with
    | none => .ok cs
    | some (tidx, _) => do
      let p ← tokenPrev cs (some tidx) true false
      match p with
      | some (pidx, ptk) =>
        if ptk.isGroup then do
          let (cs', _, _) ←
            groupTokens cs .TokenListPlain pidx (some tidx) true true
          alignCommentsLoop fuel cs' pidx
        else alignCommentsLoop fuel cs tidx
      | none => alignCommentsLoop fuel cs tidx

/-- grouping.align_comments: recurse-decorated with no skip. -/
def alignComments (n : Node) : Except PyErr Node :=
  recurseGo [] (fun _ cs => alignCommentsLoop FUEL cs (-1)) n

/-- The comma-driven inner loop of grouping.group_function_params
(grouping_class.py lines 461-464) over a Parenthesis' children: group
the slot before each comma into a FunctionParam.  Python recovers the
comma's position after the splice by identity (`token_index(param)`);
the splice replaced `[start..prevIdx]` by one group, so the comma moved
left by `prevIdx - start`. -/
def funParamsCommaLoop : Nat → List Node → Int → Int →
    Except PyErr (List Node × Int)
  | 0, _, _, _ => .error .fuel
  | fuel + 1, prn, start, endIdx => do
    let p ← tokenPrev prn (some endIdx) true true
    let (prn', _, _) ← groupTokens prn .FunctionParam start (p.map Prod.fst)
    let commaPos : Int :=
      match p with
      | some (pi, _) => endIdx - (pi - start)
      | none => endIdx
    match tokenNext prn' (some commaPos) true true with
    | none => .error .typeError
    | some (start', _) =>
      match tokenNextBy prn' [] [⟨.Punctuation, [","], false⟩] [] start' with
      | some (endIdx', _) => funParamsCommaLoop fuel prn' start' endIdx'
      | none => .ok (prn', start')

/-- One Parenthesis processed by group_function_params (grouping_class.py
lines 455-471). -/
def funParamsParen (prn : List Node) : Except PyErr (List Node) := do
  match tokenNextBy prn [] [⟨.Punctuation, ["("], false⟩] [] (-1) with
  | none => .error .typeError
  | some (oidx, _) =>
    match tokenNext prn (some oidx) true true with
    | none => .error .typeError
    | some (start, _) =>
      match tokenNextBy prn [] [⟨.Punctuation, [","], false⟩] [] (-1) with
      | some (endIdx, _) => do
        let (prn1, start1) ← funParamsCommaLoop FUEL prn start endIdx
        match tokenNextBy prn1 [] [⟨.Punctuation, [")"], false⟩] [] (-1) with
        | none => .error .typeError
        | some (cidx, _) => do
          let e ← tokenPrev prn1 (some cidx) true true
          let (prn2, _, _) ←
            groupTokens prn1 .FunctionParam start1 (e.map Prod.fst)
          .ok prn2
      | none =>
        match tokenNextBy prn [] [⟨.Punctuation, [")"], false⟩] [] (-1) with
        | none => .error .typeError
        | some (cidx, _) => do
          let e ← tokenPrev prn (some cidx) true true
          let (prn2, _, _) ←
            groupTokens prn .FunctionParam (start : Int) (e.map Prod.fst)
          .ok prn2

/-- The loop body of grouping.group_function_params (grouping_class.py
lines 450-473): for each Function child, partition its Parenthesis on
commas into FunctionParam groups. -/
def groupFunParamsLoop : Nat → List Node → Int → Except PyErr (List Node)
  | 0, _, _ => .error .fuel
  | fuel + 1, cs, prev =>
    match tokenNextBy cs [.Function] [] [] prev with
    | none => .ok cs
    | some (funidx, fn) =>
      match fn with
      | .grp .Function fcs => do
        let fcs' ←
          match tokenNextBy fcs [.Parenthesis] [] [] (-1) with
          | none => pure fcs
          | some (prnidx, .grp .Parenthesis prn) => do
            let prn' ← funParamsParen prn
            pure (fcs.set (pyPos fcs.length prnidx) (.grp .Parenthesis prn'))
          | some _ => pure fcs
        groupFunParamsLoop fuel
          (cs.set (pyPos cs.length funidx) (.grp .Function fcs')) funidx
      | _ => groupFunParamsLoop fuel cs funidx

/-- grouping.group_function_params: recurse-decorated with
FunctionParam. -/
def groupFunctionParams (n : Node) : Except PyErr Node :=
  recurseGo [GKind.FunctionParam]
    (fun _ cs => groupFunParamsLoop FUEL cs (-1)) n

/-- grouping._flatter_statement_class / _flatter_identifier_class
(grouping_class.py lines 614-624, 634-644), parameterized by the
collapsed kind: at a position holding a single-child group of that kind,
replace the group by its child and retry the same position; at any other
group recurse into every child position. -/
def flatterAt (tgt : GKind) : Nat → List Node → Nat →
    Except PyErr (List Node)
  | 0, _, _ => .error .fuel
  | fuel + 1, cs, i =>
    match cs.get? i with
    | some (.grp k sub) =>
      if k = tgt ∧ sub.length = 1 then
        match sub with
        | [c] => flatterAt tgt fuel (cs.set i c) i
        | _ => .ok cs
      else do
        let sub' ← flatterChildren tgt fuel sub 0
        .ok (cs.set i (.grp k sub'))
    | _ => .ok cs
where
  /-- The `enumerate(stmt.tokens)` walk of the `elif` branch. -/
  flatterChildren (tgt : GKind) : Nat → List Node → Nat →
      Except PyErr (List Node)
    | 0, _, _ => .error .fuel
    | fuel + 1, cs, i =>
      match cs.get? i with
      | none => .ok cs
      | some t => do
        let cs' ← if t.isGroup then flatterAt tgt fuel cs i else pure cs
        flatterChildren tgt fuel cs' (i + 1)

/-- The loop body of grouping.flatter_statement_class /
flatter_identifier_class (grouping_class.py lines 606-612, 626-632). -/
def flatterLoop (tgt : GKind) : Nat → List Node → Int →
    Except PyErr (List Node)
  | 0, _, _ => .error .fuel
  | fuel + 1, cs, prev =>
    match tokenNextBy cs [tgt] [] [] prev with
    | none => .ok cs
    | some (stmid, _) => do
      let cs' ← flatterAt tgt FUEL cs (pyPos cs.length stmid)
      flatterLoop tgt fuel cs' stmid

/-- grouping.flatter_statement_class: recurse-decorated with
Statement. -/
def flatterStatementClass (n : Node) : Except PyErr Node :=
  recurseGo [GKind.Statement]
    (fun _ cs => flatterLoop .Statement FUEL cs (-1)) n

/-- grouping.flatter_identifier_class: recurse-decorated with
Identifier. -/
def flatterIdentifierClass (n : Node) : Except PyErr Node :=
  recurseGo [GKind.Identifier]
    (fun _ cs => flatterLoop .Identifier FUEL cs (-1)) n

/-- The loop body of grouping.group_cursor_def (grouping_class.py lines
752-762).  A trailing `CURSOR` keyword dereferences `None.ttype`. -/
def groupCursorDefLoop : Nat → List Node → Int → Except PyErr (List Node)
  | 0, _, _ => .error .fuel
  | fuel + 1, cs, prev =>
    match tokenNextBy cs [] [⟨.Keyword, ["CURSOR"], false⟩] [] prev with
    | none => .ok cs
    | some (tidx, _) => do
      let cs' ←
        match tokenNext cs (some tidx) true false with
        | none => .error .attrError
        | some (nid, ntk) =>
          if ntk.isKind .Function || ntk.ttype? = some TTy.Name then do
            let isres := tokenNextBy cs [] [⟨.Keyword, ["IS"], false⟩] [] nid
            let nres := tokenNext cs (isres.map Prod.fst) true true
            match nres with
            | some (nidx, ntkn) =>
              if ntkn.isKind .Union || ntkn.isKind .Select then do
                let (cs', _, _) ← groupTokens cs .CursorDef tidx (some nidx)
                pure cs'
              else pure cs
            | none => pure cs
          else pure cs
      groupCursorDefLoop fuel cs' tidx

/-- grouping.group_cursor_def: recurse-decorated. -/
def groupCursorDef (n : Node) : Except PyErr Node :=
  recurseGo [GKind.CursorDef]
    (fun _ cs => groupCursorDefLoop FUEL cs (-1)) n

/-- The loop body of grouping.group_function_return_type
(grouping_class.py lines 596-604): inside each FunctionHeading child,
wrap the `RETURN` keyword and the next token into a ReturnType group.  A
trailing `RETURN` passes a `None` end into group_tokens (TypeError). -/
def groupFunRetLoop : Nat → List Node → Int → Except PyErr (List Node)
  | 0, _, _ => .error .fuel
  | fuel + 1, cs, prev =>
    match tokenNextBy cs [.FunctionHeading] [] [] prev with
    | none => .ok cs
    | some (fhid, fhtk) =>
      match fhtk with
      | .grp .FunctionHeading sub => do
        let sub' ←
          match tokenNextBy sub [] [⟨.Keyword, ["RETURN"], false⟩] [] (-1) with
          | none => pure sub
          | some (rid, _) => do
            let tid? := (tokenNext sub (some rid) true false).map Prod.fst
            let (sub', _, _) ← groupTokens sub .ReturnType rid tid?
            pure sub'
        groupFunRetLoop fuel
          (cs.set (pyPos cs.length fhid) (.grp .FunctionHeading sub')) fhid
      | _ => groupFunRetLoop fuel cs fhid

/-- grouping.group_function_return_type: recurse-decorated with
ReturnType. -/
def groupFunctionReturnType (n : Node) : Except PyErr Node :=
  recurseGo [GKind.ReturnType]
    (fun _ cs => groupFunRetLoop FUEL cs (-1)) n

/-- grouping._internal_fun_proc_grouping (grouping_class.py lines
376-423), returning the mutated children together with the Python return
value.  The dotted reads `_next.value.upper()` on a `None` `_next` raise
AttributeError; a `None` `end` fed to group_tokens raises TypeError. -/
def internalFunProc : Nat → List Node → Int →
    Except PyErr (List Node × Bool)
  | 0, _, _ => .error .fuel
  | fuel + 1, cs, nidx =>
    match tokenNextBy cs [.Begin] [] [] nidx with
    | none => .ok (cs, false)
    | some (bid, _) =>
      let ph? := tokenNextBy cs [.ProcedureHeading] [] [] nidx
      let fh? := tokenNextBy cs [.FunctionHeading] [] [] nidx
      match ph?, fh? with
      | some (phid, _), some (fhid, _) =>
        if phid < bid ∧ fhid < bid then
          if phid - nidx < fhid - nidx then
            internalFunProcArm fuel cs phid .ProcedureBlock
          else if phid - nidx > fhid - nidx then
            internalFunProcArm fuel cs fhid .FunctionBlock
          else .ok (cs, false)
        else ifpElifs fuel cs bid ph? fh?
      | _, _ => ifpElifs fuel cs bid ph? fh?
where
  /-- The two `elif` branches (one heading kind found before Begin). -/
  ifpElifs (fuel : Nat) (cs : List Node) (bid : Int)
      (ph? fh? : Option (Int × Node)) :
      Except PyErr (List Node × Bool) :=
    match ph? with
    | some (phid, _) =>
      if phid < bid then internalFunProcArm fuel cs phid .ProcedureBlock
      else .ok (cs, false)
    | none =>
      match fh? with
      | some (fhid, _) =>
        if fhid < bid then internalFunProcArm fuel cs fhid .FunctionBlock
        else .ok (cs, false)
      | none => .ok (cs, false)
  /-- The shared arm body: look past the heading for IS/AS, recurse, then
  group `[heading .. token after the next Begin]` as `blk`. -/
  internalFunProcArm (fuel : Nat) (cs : List Node) (hid : Int)
      (blk : GKind) : Except PyErr (List Node × Bool) :=
    match tokenNext cs (some hid) true true with
    | none => .error .attrError
    | some (nidx2, nxt) =>
      if pyUpper nxt.pyValue = "IS" || pyUpper nxt.pyValue = "AS" then do
        let (cs1, _) ← internalFunProc fuel cs nidx2
        match tokenNextBy cs1 [.Begin] [] [] nidx2 with
        | none => .ok (cs1, false)
        | some (bid2, _) => do
          let end? := (tokenNext cs1 (some bid2) true true).map Prod.fst
          let (cs2, _, _) ← groupTokens cs1 blk hid end?
          .ok (cs2, true)
      else .ok (cs, false)

/-- The `while self._internal_fun_proc_grouping(tlist, _nidx): continue`
driver of the block passes (grouping_class.py lines 356-357, 434-435). -/
def ifpFix : Nat → List Node → Int → Except PyErr (List Node)
  | 0, _, _ => .error .fuel
  | fuel + 1, cs, nidx => do
    let (cs', b) ← internalFunProc FUEL cs nidx
    if b then ifpFix fuel cs' nidx else .ok cs'

/-- The loop body of grouping.group_procedure_block (grouping_class.py
lines 425-448).  `stoken.value` with `stoken = None` raises
AttributeError. -/
def groupProcBlockLoop : Nat → List Node → Int → Except PyErr (List Node)
  | 0, _, _ => .error .fuel
  | fuel + 1, cs, prev =>
    match tokenNextBy cs [.ProcedureHeading] [] [] prev with
    | none => .ok cs
    | some (start, _) => do
      let cs' ←
        match tokenNext cs (some start) true true with
        | none => pure cs
        | some (nidx, nxt) =>
          if pyUpper nxt.pyValue = "IS" || pyUpper nxt.pyValue = "AS" then do
            let cs1 ← ifpFix FUEL cs nidx
            match tokenNextBy cs1 [.Begin] [] [] nidx with
            | none => pure cs1
            | some (bid, _) =>
              match tokenNext cs1 (some bid) true true with
              | none => do
                let (cs2, _, _) ←
                  groupTokens cs1 .ProcedureBlock start (some bid)
                pure cs2
              | some (endi, _) =>
                match tokenNext cs1 (some endi) true true with
                | none => .error .attrError
                | some (send, stok) =>
                  if stok.pyValue = ";" then do
                    let (cs2, _, _) ←
                      groupTokens cs1 .ProcedureBlock start (some send)
                    pure cs2
                  else do
                    let (cs2, _, _) ←
                      groupTokens cs1 .ProcedureBlock start (some endi)
                    pure cs2
          else pure cs
      groupProcBlockLoop fuel cs' start

/-- grouping.group_procedure_block: recurse-decorated. -/
def groupProcedureBlock (n : Node) : Except PyErr Node :=
  recurseGo [GKind.ProcedureBlock]
    (fun _ cs => groupProcBlockLoop FUEL cs (-1)) n

/-- The loop body of grouping.group_function_block (grouping_class.py
lines 346-374). -/
def groupFunBlockLoop : Nat → List Node → Int → Except PyErr (List Node)
  | 0, _, _ => .error .fuel
  | fuel + 1, cs, prev =>
    match tokenNextBy cs [.FunctionHeading] [] [] prev with
    | none => .ok cs
    | some (start, _) => do
      let cs' ←
        match tokenNext cs (some start) true true with
        | none => pure cs
        | some (nidx, nxt) =>
          if pyUpper nxt.pyValue = "IS" || pyUpper nxt.pyValue = "AS" then do
            let cs1 ← ifpFix FUEL cs nidx
            match tokenNextBy cs1 [.Begin] [] [] nidx with
            | none => pure cs1
            | some (bid, _) =>
              match tokenNext cs1 (some bid) true true with
              | some (endi, _) => do
                let (cs2, _, _) ←
                  groupTokens cs1 .FunctionBlock start (some endi)
                pure cs2
              | none => do
                let (cs2, _, _) ←
                  groupTokens cs1 .FunctionBlock start (some bid)
                pure cs2
          else pure cs
      groupFunBlockLoop fuel cs' start

/-- grouping.group_function_block: recurse-decorated. -/
def groupFunctionBlock (n : Node) : Except PyErr Node :=
  recurseGo [GKind.FunctionBlock]
    (fun _ cs => groupFunBlockLoop FUEL cs (-1)) n

/-- The loop body of grouping.group_declare_section (grouping_class.py
lines 491-504).  With no Begin inside the block, `sidx + 2 <= bid - 2`
computes `None - 2` (TypeError); Python object equality
`next_ == btkn` is identity, positionally `nid = bid`. -/
def groupDeclLoop : Nat → List Node → Int → Except PyErr (List Node)
  | 0, _, _ => .error .fuel
  | fuel + 1, cs, prev =>
    match tokenNextBy cs [.FunctionBlock, .ProcedureBlock] [] [] prev with
    | none => .ok cs
    | some (funidx, fn) =>
      match fn with
      | .grp k sub => do
        let sub' ←
          match tokenNextBy sub [] [⟨.Keyword, ["IS", "AS"], false⟩] []
              (-1) with
          | none => pure sub
          | some (sidx, _) =>
            match tokenNextBy sub [.Begin] [] [] (-1) with
            | none => .error .typeError
            | some (bid, _) =>
              if sidx + 2 ≤ bid - 2 then
                match tokenNext sub (some sidx) true true with
                | none => .error .typeError
                | some (nid, _) =>
                  if nid = bid then pure sub
                  else do
                    let (s', _, _) ←
                      groupTokens sub .DeclareSection nid (some (bid - 2))
                    pure s'
              else pure sub
        groupDeclLoop fuel
          (cs.set (pyPos cs.length funidx) (.grp k sub')) funidx
      | _ => groupDeclLoop fuel cs funidx

/-- grouping.group_declare_section: recurse-decorated. -/
def groupDeclareSection (n : Node) : Except PyErr Node :=
  recurseGo [GKind.DeclareSection]
    (fun _ cs => groupDeclLoop FUEL cs (-1)) n

/-- group_exceptions' `match`: a keyword matching Exceptions.M_OPEN
(`EXCEPTION`) or M_CLOSE (`END`). -/
def excMatch (t : Node) : Bool :=
  t.isKw && (t.matchM ⟨.Keyword, ["EXCEPTION"], false⟩
    || t.matchM ⟨.Keyword, ["END"], false⟩)

/-- group_exceptions' `valid_prev`. -/
def excValidPrev (t : Node) : Bool :=
  t.isKw && t.matchM ⟨.Keyword, ["EXCEPTION"], false⟩

/-- group_exceptions' `valid_next`. -/
def excValidNext (t : Node) : Bool :=
  t.isKw && t.matchM ⟨.Keyword, ["END"], false⟩

mutual

/-- grouping.group_exceptions (grouping_class.py lines 764-797) on one
node. -/
def groupExceptionsNode (fuel : Nat) : Node → Except PyErr Node
  | .tok ty v => .ok (.tok ty v)
  | .grp k cs => do
    let cs' ← groupExceptionsLoop fuel [] none cs
    .ok (.grp k cs')

/-- The snapshot scan of group_exceptions.  The current list is
`processed ++ rest` with the current token at index `processed.length`
(`tidx = idx - tidx_offset` in the Python); `pstate` carries
`pidx, prev_`.  Unlike `_group`, `pidx, prev_` update only on a matching
token.  The group spans from `prev_` to the token *before* the closing
`END` (the `post` of this pass); the `END` itself stays outside. -/
def groupExceptionsLoop (fuel : Nat) (processed : List Node)
    (pstate : Option (Int × Node)) :
    List Node → Except PyErr (List Node)
  | [] => .ok processed
  | t :: rest =>
    if t.isWs then groupExceptionsLoop fuel (processed ++ [t]) pstate rest
    else do
      let t' ←
        if t.isGroup && ¬ t.isKind .Exceptions then
          match fuel with
          | 0 => .error .fuel
          | f + 1 => groupExceptionsNode f t
        else pure t
      if excMatch t' then
        let fallthrough := groupExceptionsLoop fuel (processed ++ [t'])
          (some ((processed.length : Int), t')) rest
        match pstate with
        | some (pidx, prev) =>
          if excValidPrev prev && excValidNext t' then do
            let cur := processed ++ [t']
            let to? ← tokenPrev cur (some ((processed.length : Int)))
              true true
            match to? with
            | none => .error .typeError
            | some (toIdx, _) => do
              let (cur', _, grp) ← groupTokens cur .Exceptions pidx
                (some toIdx)
              groupExceptionsLoop fuel cur' (some (pidx, grp)) rest
          else fallthrough
        | none => fallthrough
      else groupExceptionsLoop fuel (processed ++ [t']) pstate rest

end

/-- grouping.group (grouping_class.py lines 799-862): the 39 passes in
source order applied to one statement. -/
def groupAll (n : Node) : Except PyErr Node := do
  let n ← groupComments n
  let n ← groupPackage FUEL n
  let n ← gmPass .SquareBrackets n
  let n ← gmPass .Parenthesis n
  let n ← gmPass .DMLOperation n
  let n ← groupSelect FUEL n
  let n ← gmPass .Case n
  let n ← gmPass .OpenLoopTag n
  let n ← gmPass .If n
  let n ← groupFor FUEL n
  let n ← gmPass .Begin n
  let n ← gmPass .Exit n
  let n ← groupProcedureHeading n
  let n ← groupFunctionHeading n
  let n ← groupFunctionReturnType n
  let n ← groupFunctions n
  let n ← groupWhere n
  let n ← groupUnion n
  let n ← groupPeriod n
  let n ← groupArrays n
  let n ← groupIdentifier n
  let n ← groupOrder n
  let n ← groupTypecasts n
  let n ← groupOperator n
  let n ← groupComparison n
  let n ← groupAs n
  let n ← groupAliased n
  let n ← groupAssignment n
  let n ← alignComments n
  let n ← groupFunctionParams n
  let n ← groupIdentifierList n
  let n ← flatterStatementClass n
  let n ← flatterIdentifierClass n
  let n ← groupCursorDef n
  let n ← groupProcedureBlock n
  let n ← groupFunctionBlock n
  let n ← groupDeclareSection n
  let n ← groupExceptionsNode FUEL n
  gmPass .Open n

mutual

/-- A splitter output buffer as a grouping-engine node: Statements become
Statement groups; a raw Python list cannot occur in the splitter's
output (proved below) and is the distinguished `gap` error. -/
def Buf.toNodeE : Buf → Except PyErr Node
  | .tk ty v => .ok (.tok ty v)
  | .st cs => do
    let ns ← toNodeEL cs
    .ok (.grp .Statement ns)
  | .fr _ => .error .gap

/-- List version of `Buf.toNodeE`. -/
def toNodeEL : List Buf → Except PyErr (List Node)
  | [] => .ok []
  | b :: bs => do
    let n ← b.toNodeE
    let ns ← toNodeEL bs
    .ok (n :: ns)

end

/-- Statement.get_type (sql.py lines 467-499) on the statement's
children.  `dml_keyword.ttype` with `dml_keyword = None` raises
AttributeError. -/
def getTypeE (cs : List Node) : Except PyErr String :=
  match tokenFirstIdx cs true true with
  | none => .ok "UNKNOWN"
  | some (fidx, ft) =>
    if ft.ttype? = some TTy.KeywordDML || ft.ttype? = some TTy.KeywordDDL
    then .ok ft.normalized
    else if ft.ttype? = some TTy.KeywordCTE then
      match tokenNext cs (some fidx) true false with
      | some (tidx, tk) =>
        if tk.isKind .Identifier || tk.isKind .IdentifierList then
          match tokenNext cs (some tidx) true false with
          | some (_, dml) =>
            if dml.ttype? = some TTy.KeywordDML then .ok dml.normalized
            else .ok "UNKNOWN"
          | none => .error .attrError
        else .ok "UNKNOWN"
      | none => .ok "UNKNOWN"
    else .ok "UNKNOWN"

/-- bsqlparse.parse on a lexed stream: split, then run the grouping
pipeline on each yielded statement. -/
def runParse (stream : List (TTy × String)) : Except PyErr (List Node) := do
  let bufs ← runSplitter stream
  let ns ← toNodeEL bufs
  ns.mapM groupAll

mutual

/-- Number of groups of a given kind in a tree (tree-shape fingerprint
for comparing pipeline runs). -/
def Node.countKind (k : GKind) : Node → Nat
  | .tok _ _ => 0
  | .grp k' cs => (if k' = k then 1 else 0) + countKindL k cs

/-- List version of `Node.countKind`. -/
def countKindL (k : GKind) : List Node → Nat
  | [] => 0
  | n :: ns => n.countKind k + countKindL k ns

end

/-! ## TokenList.__init__ on the default argument (sql.py lines 168-172) -/

/-- TokenList.__init__'s handling of its `tokens` argument:
`self.tokens = tokens or []` falls back to the empty list, but the next
line `[setattr(token, 'parent', self) for token in tokens]` iterates the
*argument*, so `tokens=None` (the default) raises TypeError before the
fallback is ever usable. -/
def tokenListInit : Option (List Node) → Except PyErr (List Node)
  | none => .error .typeError
  | some l => .ok l

/-! ## Delimiter well-formedness of `_group_matching` groups -/

mutual

/-- Every group of kind `k` in the tree opens with a token matching
`M_OPEN` and closes with one matching `M_CLOSE` of that class. -/
def gmDelimAll (k : GKind) : Node → Bool
  | .tok _ _ => true
  | .grp k' cs =>
    (if k' = k then
      (match cs.head?, cs.getLast? with
       | some h, some l =>
         h.matchM (gmOpenSpec k) && l.matchM (gmCloseSpec k)
       | _, _ => false)
     else true) && gmDelimAllL k cs

/-- List version of `gmDelimAll`. -/
def gmDelimAllL (k : GKind) : List Node → Bool
  | [] => true
  | n :: ns => gmDelimAll k n && gmDelimAllL k ns

end

/-! ## The splitter depth-delta table, claim-side and amended

Two presentations of `_change_splitlevel`'s return value for the C7
comparison; both give only the delta (the claim's table), not the flag
updates. -/

/-- Modelled from the spec: the depth-delta table exactly as the claim
states it — in particular its `LOOP` row carries no `is_create` /
`begin_depth` guard ("0 for 'LOOP' when infor or inwhile is pending,
else +1"). -/
def claimDeltaC7 (s : SpFlags) (ty : TTy) (v : String) : Int :=
  if ¬ ty.isKeywordTy then 0
  else if ty = TTy.KeywordDDL ∧ pyUpper v = "CREATE OR REPLACE" then 1
  else if pyUpper v = "DECLARE" ∧ s.is_create = true ∧ s.begin_depth = 0
  then 1
  else if pyUpper v = "BEGIN" then 1
  else if pyUpper v = "END" then -1
  else if ty = TTy.ForIn ∧ s.is_create = true ∧ s.begin_depth > 0 then 1
  else if pyUpper v = "LOOP" then
    if s.infor = true ∨ s.inwhile = true then 0 else 1
  else if pyUpper v = "CASE" then 1
  else if (pyUpper v = "IF" ∨ pyUpper v = "WHILE") ∧ s.is_create = true
      ∧ s.begin_depth > 0 then 1
  else if pyUpper v = "END CASE" then -1
  else if pyUpper v = "END IF" ∨ pyUpper v = "END WHILE"
      ∨ pyUpper v = "END LOOP" then -1
  else 0

/-- Modelled from the spec: the claim's table with its `FOR`/`LOOP` row
repaired — the whole row (a `ForIn` token whose upper-cased value starts
with `FOR`, or the value `LOOP`) fires only under
`is_create ∧ begin_depth > 0`, exactly as §4.2's guard column has it. -/
def amendedDeltaC7 (s : SpFlags) (ty : TTy) (v : String) : Int :=
  if ¬ ty.isKeywordTy then 0
  else if ty = TTy.KeywordDDL ∧ pyUpper v = "CREATE OR REPLACE" then 1
  else if pyUpper v = "DECLARE" ∧ s.is_create = true ∧ s.begin_depth = 0
  then 1
  else if pyUpper v = "BEGIN" then 1
  else if pyUpper v = "END" then -1
  else if ((pyStartsWith (pyUpper v) "FOR" ∧ ty = TTy.ForIn)
        ∨ pyUpper v = "LOOP") ∧ s.is_create = true ∧ s.begin_depth > 0
  then
    if pyStartsWith (pyUpper v) "FOR" then 1
    else if s.infor = true then 0
    else if s.inwhile = true then 0
    else 1
  else if pyUpper v = "CASE" then 1
  else if (pyUpper v = "IF" ∨ pyUpper v = "WHILE") ∧ s.is_create = true
      ∧ s.begin_depth > 0 then 1
  else if pyUpper v = "END CASE" then -1
  else if pyUpper v = "END IF" ∨ pyUpper v = "END WHILE"
      ∨ pyUpper v = "END LOOP" then -1
  else 0

/-! ## Concrete lexed streams for the claims' example inputs

Token types follow the sqlparse lexer: `CREATE` alone is `Keyword.DDL`,
`VARCHAR` is `Name.Builtin`, `END IF` lexes as the single keyword
`END IF`, `--`-comments keep their newline. -/

/-- A single-space whitespace token. -/
def wsTok : TTy × String := (TTy.Whitespace, " ")

/-- The lexeme run `VARCHAR(20)`. -/
def varchar20 : List (TTy × String) :=
  [(.NameBuiltin, "VARCHAR"), (.Punctuation, "("),
   (.NumberInteger, "20"), (.Punctuation, ")")]

/-- The C2 regression input, lexed: `CREATE FUNCTION a(x VARCHAR(20))
RETURNS VARCHAR(20) BEGIN DECLARE y VARCHAR(20); IF (1 = 1) THEN
SET x = y; END IF; RETURN x; END; SELECT * FROM a.b;`. -/
def nestedFunctionStream : List (TTy × String) :=
  [(.KeywordDDL, "CREATE"), wsTok, (.Keyword, "FUNCTION"), wsTok,
   (.Name, "a"), (.Punctuation, "("), (.Name, "x"), wsTok] ++ varchar20 ++
  [(.Punctuation, ")"), wsTok, (.Keyword, "RETURNS"), wsTok] ++
  varchar20 ++
  [wsTok, (.Keyword, "BEGIN"), wsTok, (.Keyword, "DECLARE"), wsTok,
   (.Name, "y"), wsTok] ++ varchar20 ++
  [(.Punctuation, ";"), wsTok, (.Keyword, "IF"), wsTok,
   (.Punctuation, "("), (.NumberInteger, "1"), wsTok,
   (.OperatorComparison, "="), wsTok, (.NumberInteger, "1"),
   (.Punctuation, ")"), wsTok, (.Keyword, "THEN"), wsTok,
   (.Keyword, "SET"), wsTok, (.Name, "x"), wsTok,
   (.OperatorComparison, "="), wsTok, (.Name, "y"), (.Punctuation, ";"),
   wsTok, (.Keyword, "END IF"), (.Punctuation, ";"), wsTok,
   (.Keyword, "RETURN"), wsTok, (.Name, "x"), (.Punctuation, ";"), wsTok,
   (.Keyword, "END"), (.Punctuation, ";"), wsTok, (.KeywordDML, "SELECT"),
   wsTok, (.Wildcard, "*"), wsTok, (.Keyword, "FROM"), wsTok,
   (.Name, "a"), (.Punctuation, "."), (.Name, "b"), (.Punctuation, ";")]

/-- Lexed `END x`: an unmatched closer, then a name. -/
def endNameStream : List (TTy × String) :=
  [(.Keyword, "END"), (.Name, "x")]

/-- Lexed `END END`: two unmatched closers. -/
def endEndStream : List (TTy × String) :=
  [(.Keyword, "END"), (.Keyword, "END")]

/-- A lone `PROCEDURE` keyword. -/
def procedureStream : List (TTy × String) := [(.Keyword, "PROCEDURE")]

/-- Lexed `-- comment\ninsert into foo`. -/
def commentInsertStream : List (TTy × String) :=
  [(.CommentSingle, "-- comment\n"), (.KeywordDML, "insert"), wsTok,
   (.Keyword, "into"), wsTok, (.Name, "foo")]

/-- Lexed `WITH foo AS (SELECT 1)`. -/
def withAsStream : List (TTy × String) :=
  [(.KeywordCTE, "WITH"), wsTok, (.Name, "foo"), wsTok, (.Keyword, "AS"),
   wsTok, (.Punctuation, "("), (.KeywordDML, "SELECT"), wsTok,
   (.NumberInteger, "1"), (.Punctuation, ")")]

/-- Lexed `CASE WHERE 1 END`. -/
def caseWhereStream : List (TTy × String) :=
  [(.Keyword, "CASE"), wsTok, (.Keyword, "WHERE"), wsTok,
   (.NumberInteger, "1"), wsTok, (.Keyword, "END")]

/-- Lexed `f(a)`. -/
def fnCallStream : List (TTy × String) :=
  [(.Name, "f"), (.Punctuation, "("), (.Name, "a"), (.Punctuation, ")")]

/-! ## The parent-annotated tree and its mutation primitives (C8)

`ANode` carries, on every node, the parent pointer the Python `setattr`
calls maintain: `par` is the id of the group the node believes owns it
(`0` stands for `parent = None`).  The primitives below are the only
operations through which the splitter and every grouping pass mutate
children lists: `TokenList.__init__` (sql.py 168-172),
`TokenList.group_tokens` (358-386), `TokenList.insert_before` (388-393)
and `TokenList.pop` (187-188).  `wfA` is the claim's invariant: every
child of a group records that group's id as its parent. -/

inductive ANode where
  | tok (par : Nat) (ty : TTy) (v : String)
  | grp (par : Nat) (id : Nat) (k : GKind) (cs : List ANode)
  deriving Repr

/-- The recorded parent id. -/
def ANode.par : ANode → Nat
  | .tok p _ _ => p
  | .grp p _ _ _ => p

/-- `setattr(token, 'parent', ...)`. -/
def aSetPar (i : Nat) : ANode → ANode
  | .tok _ ty v => .tok i ty v
  | .grp _ g k cs => .grp i g k cs

/-- Group or token. -/
def ANode.isGrp : ANode → Bool
  | .tok _ _ _ => false
  | .grp _ _ _ _ => true

mutual

/-- Parent consistency: every direct child of every group records its
parent's id. -/
def wfA : ANode → Bool
  | .tok _ _ _ => true
  | .grp _ i _ cs => wfAL i cs

/-- The children of a group with id `i` are all parented to `i` and
recursively consistent. -/
def wfAL (i : Nat) : List ANode → Bool
  | [] => true
  | c :: cs => c.par = i && wfA c && wfAL i cs

end

/-- Python `l[a:b]` on annotated nodes. -/
def aSlice (ts : List ANode) (a b : Int) : List ANode :=
  (ts.take (pyNormSlice ts.length b)).drop (pyNormSlice ts.length a)

/-- Python `l[a:b] = r` on annotated nodes. -/
def aSliceAssign (ts : List ANode) (a b : Int) (r : List ANode) :
    List ANode :=
  let s := pyNormSlice ts.length a
  let e := max s (pyNormSlice ts.length b)
  ts.take s ++ r ++ ts.drop e

/-- Python `del l[a:b]` on annotated nodes. -/
def aDelSlice (ts : List ANode) (a b : Int) : List ANode :=
  aSliceAssign ts a b []

/-- Python `l[i]` on annotated nodes. -/
def aGet (ts : List ANode) (i : Int) : Except PyErr ANode :=
  let j : Int := if i < 0 then (ts.length : Int) + i else i
  if h : 0 ≤ j ∧ j < ts.length then
    .ok (ts.get ⟨j.toNat, by omega⟩)
  else .error .indexError

/-- TokenList.group_tokens (sql.py lines 358-386) on the children `cs`
of the group with id `owner`, with the parent bookkeeping spelled out:
the non-extend branch builds `grp_cls(subtokens)` (re-parenting the
subtokens to the fresh group id through `TokenList.__init__`), splices
it in and sets `grp.parent = self`; the extend branch appends the extra
subtokens to the group already at `start` and re-parents only those.
Both end with the (redundant) `token.parent = grp` loop. -/
def aGroupTokens (owner : Nat) (cs : List ANode) (k : GKind)
    (fresh : Nat) (start : Int) (end? : Option Int)
    (includeEnd : Bool := true) (extend : Bool := false) :
    Except PyErr (List ANode) := do
  let startTok ← aGet cs start
  let endIdx : Int ← match end? with
    | none => .error .typeError
    | some e => pure (e + (if includeEnd then 1 else 0))
  match startTok with
  | .grp p0 gid k' sub =>
    if extend && pyIsinstance k' k then
      let subtokens := (aSlice cs (start + 1) endIdx).map (aSetPar gid)
      let grp := ANode.grp p0 gid k' (sub ++ subtokens)
      let pos := pyPos cs.length start
      .ok (aDelSlice (cs.set pos grp) (start + 1) endIdx)
    else
      let subtokens := (aSlice cs start endIdx).map (aSetPar fresh)
      let grp := ANode.grp owner fresh k subtokens
      .ok (aSliceAssign cs start endIdx [grp])
  | _ =>
    let subtokens := (aSlice cs start endIdx).map (aSetPar fresh)
    let grp := ANode.grp owner fresh k subtokens
    .ok (aSliceAssign cs start endIdx [grp])

/-- TokenList.insert_before (sql.py lines 388-393) at a plain integer
position: `token.parent = self; self.tokens.insert(where, token)`. -/
def aInsertBefore (owner : Nat) (cs : List ANode) (pos : Nat)
    (t : ANode) : List ANode :=
  (cs.take pos) ++ [aSetPar owner t] ++ cs.drop pos

/-- TokenList.pop (sql.py lines 187-188): remove and return; the popped
node keeps its stale parent pointer but leaves the tree. -/
def aPop (cs : List ANode) (i : Int) : Except PyErr (List ANode) := do
  let _ ← aGet cs i
  .ok (aDelSlice cs i (i + 1))

/-- One mutation primitive, to be applied to the children of one group:
everything the splitter and the grouping passes do to a children list
factors through these. -/
inductive AOp where
  | agroup (k : GKind) (fresh : Nat) (start : Int) (end? : Option Int)
      (includeEnd extend : Bool)
  | ainsert (pos : Nat) (t : ANode)
  | apop (pos : Int)

/-- Apply a primitive to the children of the group with id `owner`. -/
def applyAOp (owner : Nat) (cs : List ANode) :
    AOp → Except PyErr (List ANode)
  | .agroup k fresh start end? includeEnd extend =>
    aGroupTokens owner cs k fresh start end? includeEnd extend
  | .ainsert pos t => .ok (aInsertBefore owner cs pos t)
  | .apop pos => aPop cs pos

/-- An op addressed at a node: the path of child positions leading to
the target group. -/
def applyAt : List Nat → AOp → ANode → Except PyErr ANode
  | path, op, .grp p i k cs =>
    match path with
    | [] => do
      let cs' ← applyAOp i cs op
      .ok (.grp p i k cs')
    | j :: rest =>
      match cs.get? j with
      | some c => do
        let c' ← applyAt rest op c
        .ok (.grp p i k (cs.set j c'))
      | none => .error .indexError
  | _, _, .tok _ _ _ => .error .attrError

/-- Inserted subtrees must themselves be consistent (in the passes they
are nodes coming out of the same tree). -/
def aopWf : AOp → Bool
  | .ainsert _ t => wfA t
  | _ => true

/-- A whole mutation script: ops with their target paths. -/
def applyScript : List (List Nat × AOp) → ANode →
    Except PyErr ANode
  | [], t => .ok t
  | (path, op) :: rest, t => do
    let t' ← applyAt path op t
    applyScript rest t'

end BSqlParse

-- ==================================================================
-- Theorems (helper lemmas first, claim theorems at the end)
-- ==================================================================

namespace BSqlParse

theorem leavesL_append (a b : List Buf) :
    leavesL (a ++ b) = leavesL a ++ leavesL b := by
  induction a with
  | nil => simp [leavesL]
  | cons x xs ih => simp [leavesL, ih]

theorem hasFrL_append (a b : List Buf) :
    hasFrL (a ++ b) = (hasFrL a || hasFrL b) := by
  induction a with
  | nil => simp [hasFrL]
  | cons x xs ih => simp [hasFrL, ih, Bool.or_assoc]

theorem wfB_concat_fr (l c : List Buf) (n : Nat) :
    wfB (l ++ [Buf.fr c]) (n + 1) = (!hasFrL l && wfB c n) := by
  simp only [wfB, List.getLast?_concat, List.dropLast_concat]

theorem wfB_succ_elim {ts : List Buf} {n : Nat} (h : wfB ts (n + 1) = true) :
    ∃ c, ts.getLast? = some (Buf.fr c) ∧ ts.dropLast ++ [Buf.fr c] = ts ∧
      hasFrL ts.dropLast = false ∧ wfB c n = true := by
  simp only [wfB] at h
  cases hl : ts.getLast? with
  | none => rw [hl] at h; simp at h
  | some b =>
    cases b with
    | tk ty' v' => rw [hl] at h; simp at h
    | st cs => rw [hl] at h; simp at h
    | fr c =>
      rw [hl] at h
      refine ⟨c, rfl, List.dropLast_append_getLast? _ hl, ?_, ?_⟩
      · have h1 := (Bool.and_eq_true .. |>.mp h).1
        simpa using h1
      · exact (Bool.and_eq_true .. |>.mp h).2

theorem leavesL_dropLast_chain {ts c : List Buf}
    (hts : ts.dropLast ++ [Buf.fr c] = ts) :
    leavesL ts.dropLast ++ leavesL c = leavesL ts := by
  conv_rhs => rw [← hts]
  simp [leavesL_append, leavesL, Buf.leaves]

theorem walk_append_tk (ty : TTy) (v : String) :
    ∀ (n : Nat) (ts : List Buf), wfB ts n = true →
      ∃ ts', walkLast (appendAct (Buf.tk ty v)) n ts
          = .ok ts'
        ∧ wfB ts' n = true ∧ leavesL ts' = leavesL ts ++ [(ty, v)] := by
  intro n
  induction n with
  | zero =>
    intro ts h
    refine ⟨ts ++ [Buf.tk ty v], rfl, ?_, ?_⟩
    · simp only [wfB] at h ⊢
      simp only [hasFrL_append]
      simp [hasFrL, Buf.hasFr]
      simpa using h
    · simp [leavesL_append, leavesL, Buf.leaves]
  | succ n ih =>
    intro ts h
    obtain ⟨c, hl, hts, h1, h2⟩ := wfB_succ_elim h
    obtain ⟨c', hc', hwf', hlv'⟩ := ih c h2
    refine ⟨ts.dropLast ++ [Buf.fr c'], ?_, ?_, ?_⟩
    · simp only [walkLast, hl, hc']; rfl
    · rw [wfB_concat_fr]; simp [h1, hwf']
    · calc leavesL (ts.dropLast ++ [Buf.fr c'])
          = leavesL ts.dropLast ++ (leavesL c ++ [(ty, v)]) := by
            simp [leavesL_append, leavesL, Buf.leaves, hlv']
        _ = (leavesL ts.dropLast ++ leavesL c) ++ [(ty, v)] := by
            simp [List.append_assoc]
        _ = leavesL ts ++ [(ty, v)] := by
            rw [leavesL_dropLast_chain hts]

theorem walk_append_fr :
    ∀ (n : Nat) (ts : List Buf), wfB ts n = true →
      ∃ ts', walkLast newArrAct n ts = .ok ts'
        ∧ wfB ts' (n + 1) = true ∧ leavesL ts' = leavesL ts := by
  intro n
  induction n with
  | zero =>
    intro ts h
    refine ⟨ts ++ [Buf.fr []], rfl, ?_, ?_⟩
    · rw [wfB_concat_fr]
      simp only [wfB] at h
      simp [wfB, hasFrL]
      simpa using h
    · simp [leavesL_append, leavesL, Buf.leaves]
  | succ n ih =>
    intro ts h
    obtain ⟨c, hl, hts, h1, h2⟩ := wfB_succ_elim h
    obtain ⟨c', hc', hwf', hlv'⟩ := ih c h2
    refine ⟨ts.dropLast ++ [Buf.fr c'], ?_, ?_, ?_⟩
    · simp only [walkLast, hl, hc']; rfl
    · rw [wfB_concat_fr]; simp [h1, hwf']
    · calc leavesL (ts.dropLast ++ [Buf.fr c'])
          = leavesL ts.dropLast ++ leavesL c := by
            simp [leavesL_append, leavesL, Buf.leaves, hlv']
        _ = leavesL ts := leavesL_dropLast_chain hts

/-- The action performed by `process_list_at_depth` at the end of its
walk: pop the innermost frame and wrap it as a Statement. -/
theorem walk_proc :
    ∀ (d : Nat) (ts : List Buf), wfB ts (d + 1) = true →
      ∃ ts',
        walkLast procAct d ts = .ok ts'
        ∧ wfB ts' d = true ∧ leavesL ts' = leavesL ts := by
  intro d
  induction d with
  | zero =>
    intro ts h
    obtain ⟨c, hl, hts, h1, h2⟩ := wfB_succ_elim h
    have h2' : hasFrL c = false := by simpa [wfB] using h2
    refine ⟨ts.dropLast ++ [Buf.st c], ?_, ?_, ?_⟩
    · simp only [walkLast, procAct, hl, mkStatement, h2']
      rfl
    · simp only [wfB, hasFrL_append]
      simp [h1, hasFrL, Buf.hasFr, h2']
    · calc leavesL (ts.dropLast ++ [Buf.st c])
          = leavesL ts.dropLast ++ leavesL c := by
            simp [leavesL_append, leavesL, Buf.leaves]
        _ = leavesL ts := leavesL_dropLast_chain hts
  | succ d ih =>
    intro ts h
    obtain ⟨c, hl, hts, h1, h2⟩ := wfB_succ_elim h
    obtain ⟨c', hc', hwf', hlv'⟩ := ih c h2
    refine ⟨ts.dropLast ++ [Buf.fr c'], ?_, ?_, ?_⟩
    · simp only [walkLast, hl, hc']; rfl
    · rw [wfB_concat_fr]; simp [h1, hwf']
    · calc leavesL (ts.dropLast ++ [Buf.fr c'])
          = leavesL ts.dropLast ++ leavesL c := by
            simp [leavesL_append, leavesL, Buf.leaves, hlv']
        _ = leavesL ts := leavesL_dropLast_chain hts

theorem except_ok_bind {α β : Type} (a : α)
    (f : α → Except PyErr β) : (Except.ok a >>= f) = f a := rfl

theorem changeSplitlevel_delta (s : SpFlags) (ty : TTy) (v : String) :
    (changeSplitlevel s ty v).1 = -1 ∨ (changeSplitlevel s ty v).1 = 0
      ∨ (changeSplitlevel s ty v).1 = 1 := by
  unfold changeSplitlevel
  by_cases h1 : ¬ ty.isKeywordTy
  · rw [if_pos h1]; exact Or.inr (Or.inl rfl)
  · rw [if_neg h1]
    repeat' split
    all_goals first
      | exact Or.inl rfl
      | exact Or.inr (Or.inl rfl)
      | exact Or.inr (Or.inr rfl)

/-- One splitter step never raises, keeps the buffer invariant, and (while
the level is nonnegative) appends exactly the consumed token to the
flattened buffer. -/
theorem splitStep_spec (s : SpState) (ty : TTy) (v : String)
    (h : wfB s.tokens s.level.toNat = true) :
    ∃ ts', splitStep s ty v = .ok { pureStep s ty v with tokens := ts' }
      ∧ wfB ts' (pureStep s ty v).level.toNat = true
      ∧ (0 ≤ s.level → leavesL ts' = leavesL s.tokens ++ [(ty, v)]) := by
  obtain ⟨csl, f1, hcs⟩ :
      ∃ csl f1, changeSplitlevel s.flags ty v = (csl, f1) := ⟨_, _, rfl⟩
  have hps : pureStep s ty v =
      { s with flags := f1, level := s.level + csl } := by
    simp [pureStep, hcs]
  have hδ : csl = -1 ∨ csl = 0 ∨ csl = 1 := by
    have := changeSplitlevel_delta s.flags ty v
    rw [hcs] at this; exact this
  unfold splitStep
  rw [hcs]
  simp only [hps]
  rcases hδ with hδ | hδ | hδ <;> subst hδ
  · -- csl = -1 : append at depth (level - 1) + 1, then process at the same
    rw [if_neg (by decide), if_pos rfl]
    rcases lt_trichotomy s.level 0 with hc | hc | hc
    · -- level < 0 : token dropped, processing is a no-op
      refine ⟨s.tokens, ?_, ?_, ?_⟩
      · simp [appendTokenAtDepth, processListAtDepth, except_ok_bind,
          show s.level + 1 ≤ 0 by omega, show s.level ≤ 0 by omega]
      · have he : (s.level + -1).toNat = s.level.toNat := by omega
        simp only [he]; exact h
      · intro hge; omega
    · -- level = 0 : token appended at top, processing at depth 0 no-op
      have h0 : s.level.toNat = 0 := by omega
      obtain ⟨ts', heq, hwf, hlv⟩ :=
        walk_append_tk ty v 0 s.tokens (by rw [h0] at h; exact h)
      refine ⟨ts', ?_, ?_, fun _ => hlv⟩
      · simp [appendTokenAtDepth, processListAtDepth, except_ok_bind, hc, heq]
      · have he : (s.level + -1).toNat = 0 := by omega
        simp only [he]
        simpa [wfB] using hwf
    · -- level ≥ 1 : append at depth level, then close the innermost frame
      obtain ⟨ts1, heq1, hwf1, hlv1⟩ :=
        walk_append_tk ty v s.level.toNat s.tokens h
      have hchain : s.level.toNat = (s.level - 1).toNat + 1 := by omega
      obtain ⟨ts', heq2, hwf2, hlv2⟩ :=
        walk_proc (s.level - 1).toNat ts1 (by rw [← hchain]; exact hwf1)
      refine ⟨ts', ?_, ?_, ?_⟩
      · have hb : (s.level - 1).toNat = s.level.toNat - 1 := by omega
        rw [hb] at heq2
        simp [appendTokenAtDepth, processListAtDepth, except_ok_bind,
          show ¬ s.level + 1 ≤ 0 by omega,
          show ¬ s.level ≤ 0 by omega, heq1, heq2]
      · have he : (s.level + -1).toNat = (s.level - 1).toNat := by omega
        simp only [he]; exact hwf2
      · intro _; rw [hlv2, hlv1]
  · -- csl = 0 : append at the current depth
    rw [if_neg (by decide), if_neg (by decide)]
    rcases lt_or_le s.level 0 with hc | hc
    · refine ⟨s.tokens, ?_, ?_, ?_⟩
      · simp [appendTokenAtDepth, except_ok_bind,
          show s.level + 1 ≤ 0 by omega]
      · have he : (s.level + 0).toNat = s.level.toNat := by omega
        simp only [he]; exact h
      · intro hge; omega
    · obtain ⟨ts', heq, hwf, hlv⟩ :=
        walk_append_tk ty v s.level.toNat s.tokens h
      refine ⟨ts', ?_, ?_, fun _ => hlv⟩
      · simp [appendTokenAtDepth, except_ok_bind,
          show ¬ s.level + 1 ≤ 0 by omega, heq]
      · have he : (s.level + 0).toNat = s.level.toNat := by omega
        simp only [he]; exact hwf
  · -- csl = 1 : open a frame at the new depth, append into it
    rw [if_pos rfl]
    rcases lt_or_le s.level 0 with hc | hc
    · rcases lt_or_le s.level (-1) with hc2 | hc2
      · -- level ≤ -2 : both the new array and the token are dropped
        refine ⟨s.tokens, ?_, ?_, ?_⟩
        · simp [addNewTokenArrayAt, appendTokenAtDepth, except_ok_bind,
            show s.level + 1 ≤ 0 by omega,
            show s.level + 1 + 1 ≤ 0 by omega]
        · have he : (s.level + 1).toNat = s.level.toNat := by omega
          simp only [he]; exact h
        · intro hge; omega
      · -- level = -1 : no frame opened, token appended at the top
        have h0 : s.level.toNat = 0 := by omega
        obtain ⟨ts', heq, hwf, hlv⟩ :=
          walk_append_tk ty v 0 s.tokens (by rw [h0] at h; exact h)
        refine ⟨ts', ?_, ?_, ?_⟩
        · have hm : s.level = -1 := by omega
          simp [addNewTokenArrayAt, appendTokenAtDepth, except_ok_bind, hm, heq]
        · have he : (s.level + 1).toNat = 0 := by omega
          simp only [he]
          simpa [wfB] using hwf
        · intro hge; omega
    · -- level ≥ 0 : open a frame at depth level + 1 and append into it
      obtain ⟨ts1, heq1, hwf1, hlv1⟩ := walk_append_fr s.level.toNat s.tokens h
      obtain ⟨ts', heq2, hwf2, hlv2⟩ :=
        walk_append_tk ty v (s.level.toNat + 1) ts1 hwf1
      refine ⟨ts', ?_, ?_, ?_⟩
      · have hb : (s.level + 1).toNat = s.level.toNat + 1 := by omega
        simp [addNewTokenArrayAt, appendTokenAtDepth, except_ok_bind,
          show ¬ s.level + 1 ≤ 0 by omega,
          show ¬ s.level + 1 + 1 ≤ 0 by omega, hb, heq1, heq2]
      · have he : (s.level + 1).toNat = s.level.toNat + 1 := by omega
        simp only [he]; exact hwf2
      · intro _; rw [hlv2, hlv1]

theorem drain_spec :
    ∀ (n : Nat) (lvl : Int) (ts : List Buf), lvl.toNat ≤ n →
      wfB ts lvl.toNat = true →
      ∃ p, drainLoop n lvl ts = .ok p ∧ wfB p.2 0 = true
        ∧ leavesL p.2 = leavesL ts := by
  intro n
  induction n with
  | zero =>
    intro lvl ts hle h
    have h0 : lvl.toNat = 0 := by omega
    have hl0 : ¬ lvl > 0 := by omega
    refine ⟨(lvl, ts), ?_, ?_, rfl⟩
    · simp [drainLoop, hl0]
    · rw [h0] at h; exact h
  | succ n ih =>
    intro lvl ts hle h
    by_cases hl : lvl > 0
    · have hchain : lvl.toNat = (lvl - 1).toNat + 1 := by omega
      obtain ⟨ts1, heq1, hwf1, hlv1⟩ :=
        walk_proc (lvl - 1).toNat ts (by rw [← hchain]; exact h)
      obtain ⟨p, heq2, hwf2, hlv2⟩ := ih (lvl - 1) ts1 (by omega) hwf1
      refine ⟨p, ?_, hwf2, by rw [hlv2, hlv1]⟩
      rw [show (lvl - 1).toNat = lvl.toNat - 1 by omega] at heq1
      simp [drainLoop, hl, processListAtDepth, show ¬ lvl ≤ 0 by omega,
        except_ok_bind, heq1, heq2]
    · have h0 : lvl.toNat = 0 := by omega
      refine ⟨(lvl, ts), ?_, ?_, rfl⟩
      · simp [drainLoop, hl]
      · rw [h0] at h; exact h

theorem foldlM_split_ok :
    ∀ (stream : List (TTy × String)) (s : SpState),
      wfB s.tokens s.level.toNat = true →
      ∃ s', stream.foldlM (fun st p => splitStep st p.1 p.2) s = .ok s'
        ∧ wfB s'.tokens s'.level.toNat = true := by
  intro stream
  induction stream with
  | nil => intro s h; exact ⟨s, rfl, h⟩
  | cons p rest ih =>
    intro s h
    obtain ⟨ts', heq, hwf, _⟩ := splitStep_spec s p.1 p.2 h
    obtain ⟨s', heq', hwf'⟩ := ih { pureStep s p.1 p.2 with tokens := ts' } hwf
    exact ⟨s', by simp [List.foldlM_cons, heq, except_ok_bind, heq'], hwf'⟩

theorem levelsNonneg_tokens (stream : List (TTy × String)) :
    ∀ (s : SpState) (t : List Buf),
      levelsNonneg { s with tokens := t } stream = levelsNonneg s stream := by
  induction stream with
  | nil => intro s t; rfl
  | cons p rest ih =>
    intro s t
    show (decide (0 ≤ (pureStep { s with tokens := t } p.1 p.2).level)
        && levelsNonneg (pureStep { s with tokens := t } p.1 p.2) rest) = _
    have hcomm : pureStep { s with tokens := t } p.1 p.2
        = { pureStep s p.1 p.2 with tokens := t } := rfl
    rw [hcomm, ih (pureStep s p.1 p.2) t]
    rfl

theorem foldlM_split_roundtrip :
    ∀ (stream : List (TTy × String)) (s : SpState),
      wfB s.tokens s.level.toNat = true → 0 ≤ s.level →
      levelsNonneg s stream = true →
      ∃ s', stream.foldlM (fun st p => splitStep st p.1 p.2) s = .ok s'
        ∧ wfB s'.tokens s'.level.toNat = true ∧ 0 ≤ s'.level
        ∧ leavesL s'.tokens = leavesL s.tokens ++ stream := by
  intro stream
  induction stream with
  | nil => intro s h hge _; exact ⟨s, rfl, h, hge, by simp [leavesL]⟩
  | cons p rest ih =>
    intro s h hge hnn
    obtain ⟨ts', heq, hwf, hlv⟩ := splitStep_spec s p.1 p.2 h
    have hnn1 : 0 ≤ (pureStep s p.1 p.2).level ∧
        levelsNonneg (pureStep s p.1 p.2) rest = true := by
      have := hnn
      simp only [levelsNonneg, Bool.and_eq_true, decide_eq_true_eq] at this
      exact this
    obtain ⟨s', heq', hwf', hge', hlv'⟩ :=
      ih { pureStep s p.1 p.2 with tokens := ts' }
        hwf hnn1.1 (by rw [levelsNonneg_tokens]; exact hnn1.2)
    refine ⟨s', by simp [List.foldlM_cons, heq, except_ok_bind, heq'],
      hwf', hge', ?_⟩
    rw [hlv']
    show leavesL ts' ++ rest = _
    rw [hlv hge]
    simp

/-- The splitter never raises: `StatementSplitter.process` completes on
every input stream. -/
theorem runSplitter_ok (stream : List (TTy × String)) :
    ∃ out, runSplitter stream = .ok out := by
  obtain ⟨s', heq, hwf⟩ := foldlM_split_ok stream {} (by decide)
  obtain ⟨p, heq2, hwf2, _⟩ :=
    drain_spec s'.level.toNat s'.level s'.tokens le_rfl hwf
  by_cases he : p.2.isEmpty
  · refine ⟨[], ?_⟩
    simp [runSplitter, heq, except_ok_bind, heq2, he]
  · refine ⟨[Buf.st p.2], ?_⟩
    have hfr : hasFrL p.2 = false := by simpa [wfB] using hwf2
    simp [runSplitter, heq, except_ok_bind, heq2, he, mkStatement, hfr]

/-- Round trip of the splitter alone: if the running level never goes
negative, the yielded statements flatten back to exactly the input
stream. -/
theorem runSplitter_roundtrip (stream : List (TTy × String))
    (h : levelsNonneg {} stream = true) :
    ∃ out, runSplitter stream = .ok out ∧ leavesOut out = stream := by
  obtain ⟨s', heq, hwf, _, hlv⟩ :=
    foldlM_split_roundtrip stream {} (by decide) (by decide) h
  obtain ⟨p, heq2, hwf2, hlv2⟩ :=
    drain_spec s'.level.toNat s'.level s'.tokens le_rfl hwf
  have hstream : leavesL p.2 = stream := by
    rw [hlv2, hlv]; simp [leavesL]
  by_cases he : p.2.isEmpty
  · refine ⟨[], ?_, ?_⟩
    · simp [runSplitter, heq, except_ok_bind, heq2, he]
    · have : p.2 = [] := by
        cases hp : p.2
        · rfl
        · rw [hp] at he; simp [List.isEmpty] at he
      rw [this] at hstream
      simp [leavesOut, leavesL] at hstream ⊢
      exact hstream
  · refine ⟨[Buf.st p.2], ?_, ?_⟩
    · have hfr : hasFrL p.2 = false := by simpa [wfB] using hwf2
      simp [runSplitter, heq, except_ok_bind, heq2, he, mkStatement, hfr]
    · simp [leavesOut, leavesL, Buf.leaves, hstream]

end BSqlParse

namespace BSqlParse

/-! ## Claim theorems (easy concrete ones) -/

/-- C10: `TokenList.__init__` with the default `tokens=None` raises
TypeError (the parent-setting comprehension iterates the argument before
the `or []` fallback can matter), while any actual list — including the
empty one — constructs fine. -/
theorem C10_tokenlist_none :
    tokenListInit none = Except.error PyErr.typeError
      ∧ ∀ l : List Node, tokenListInit (some l) = Except.ok l := by
  exact ⟨rfl, fun l => rfl⟩

/-- C5: the parser is not total — on the single-token stream `PROCEDURE`
the grouping pass `group_procedure_heading` dereferences
`token.ttype` with `token = None` and raises AttributeError. -/
theorem C5_procedure_raises :
    runParse procedureStream = Except.error PyErr.attrError := rfl

/-- C2: on the claim's `CREATE FUNCTION ... END; SELECT * FROM a.b;`
input the splitter yields one single statement, not the two the spec
(and the repository's own regression tests) prescribe. -/
theorem C2_split_yields_one :
    (runSplitter nestedFunctionStream).map List.length = Except.ok 1 :=
  rfl

/-- C9 (counterexample): re-running the grouping pipeline on the parsed
`f(a)` is not a no-op — the single FunctionParam group becomes two
nested ones. -/
theorem C9_regroup_changes :
    ((runParse fnCallStream).map (countKindL GKind.FunctionParam)
        = Except.ok 1)
      ∧ (((runParse fnCallStream).bind
            (fun ns => ns.mapM groupAll)).map
          (countKindL GKind.FunctionParam) = Except.ok 2) :=
  ⟨rfl, rfl⟩

/-- C9: the second pipeline run on parsed `f(a)` rewraps the existing
FunctionParam in a fresh FunctionParam (group_function_params groups
from the first non-whitespace child after `(` to the one before `)`
with `extend=False`), yielding exactly this doubly-wrapped tree. -/
theorem C9_double_wrap :
    (runParse fnCallStream).bind (fun ns => ns.mapM groupAll) =
      Except.ok [Node.grp .Statement
        [Node.grp .Function
          [Node.tok .Name "f",
           Node.grp .Parenthesis
             [Node.tok .Punctuation "(",
              Node.grp .FunctionParam
                [Node.grp .FunctionParam [Node.tok .Name "a"]],
              Node.tok .Punctuation ")"]]]] := rfl

/-- C7 (counterexample): on a bare `LOOP` keyword with the splitter's
initial flags the claim's table prescribes `+1` (its LOOP row carries no
`is_create`/`begin_depth` guard), but `_change_splitlevel` returns `0`
(the guard in the code covers the whole FOR/LOOP row). -/
theorem C7_loop_guard_cx :
    claimDeltaC7 {} TTy.Keyword "LOOP" = 1
      ∧ (changeSplitlevel {} TTy.Keyword "LOOP").1 = 0 := ⟨rfl, rfl⟩

/-- C1 (counterexample): splitting then grouping `END x` loses the `x`:
the unmatched `END` drives `self.level` to `-1` and
`append_token_at_depth(-1, x)` runs `range(0)` — the token is never
appended, so the flattened parse is just `END`. -/
theorem C1_round_trip_cx :
    (runParse endNameStream).map flatL
        = Except.ok [((TTy.Keyword : TTy), "END")]
      ∧ endNameStream ≠ [((TTy.Keyword : TTy), "END")] :=
  ⟨rfl, by decide⟩

/-- C3 (counterexample): on `END END` the second unmatched closer is not
"appended into the current frame" — it is dropped.  The first `END`
takes the level to `-1` and is appended at depth `level + 1 = 0`; the
second takes the level to `-2`, and `append_token_at_depth(-1, END)`
runs `range(0)`, appending nowhere.  The yielded statement holds one
`END`, not two. -/
theorem C3_extra_closer_lost :
    (runSplitter endEndStream).map leavesOut
        = Except.ok [((TTy.Keyword : TTy), "END")]
      ∧ endEndStream ≠ [((TTy.Keyword : TTy), "END")] :=
  ⟨rfl, by decide⟩

/-- C6 (counterexample): `get_type` on the parsed `WITH foo AS (SELECT
1)` does not return a type or `'UNKNOWN'` — after the CTE keyword it
finds the Identifier group, asks for the next token, gets `None` and
raises AttributeError on `dml_keyword.ttype`. -/
theorem C6_with_crashes :
    ((runParse withAsStream).bind (fun ns =>
      match ns with
      | [Node.grp .Statement cs] => getTypeE cs
      | _ => .error .gap)) = Except.error PyErr.attrError := rfl

/-- C4 (counterexample): parsing `CASE WHERE 1 END` yields a Case group
whose last child is the Where group that swallowed the `END` (group_where
closes at `_groupable_tokens[-1]` when no closer keyword follows), so the
Case group is not delimited by `CASE`/`END` tokens. -/
theorem C4_case_where_cx :
    (runParse caseWhereStream).map (gmDelimAllL GKind.Case)
      = Except.ok false := rfl

end BSqlParse

namespace BSqlParse

/-- `l[0:len(l)]` is `l`. -/
theorem pySlice_full (ts : List Node) :
    pySlice ts 0 (ts.length : Int) = ts := by
  have h1 : pyNormSlice ts.length ((ts.length : Nat) : Int) = ts.length := by
    simp [pyNormSlice]
  have h2 : pyNormSlice ts.length 0 = 0 := by simp [pyNormSlice]
  simp [pySlice, h1, h2]

/-- C6: `Statement.get_type` — an empty statement reports `UNKNOWN`;
a statement whose first token is a `Keyword.DML` reports that token's
normalized (upper-cased) value, for every value and tail; and parsing
`-- comment\ninsert into foo` reports `INSERT` (the leading comment is
skipped).  The CTE path differs from the claim: it inspects only the
token immediately after the Identifier/IdentifierList (whitespace-,
not comment-skipping), and when that token is missing it raises
(see the counterexample). -/
theorem C6_get_type :
    (getTypeE [] = Except.ok "UNKNOWN")
    ∧ (∀ (v : String) (cs : List Node),
        getTypeE (Node.tok TTy.KeywordDML v :: cs)
          = Except.ok (pyUpper v))
    ∧ ((runParse commentInsertStream).bind (fun ns =>
        match ns with
        | [Node.grp .Statement cs] => getTypeE cs
        | _ => .error .gap) = Except.ok "INSERT") := by
  refine ⟨rfl, ?_, rfl⟩
  intro v cs
  have hslice : pySlice (Node.tok TTy.KeywordDML v :: cs) 0
      ((cs.length : Int) + 1) = Node.tok TTy.KeywordDML v :: cs := by
    simpa using pySlice_full (Node.tok TTy.KeywordDML v :: cs)
  simp [getTypeE, tokenFirstIdx, tokenMatchingFwd, hslice,
        tokenMatchingFwd.go, notWsCm, Node.isWs, imt, Node.isKindIn,
        Node.isKind, Node.matchAny, Node.ttype?, TTy.isWsTy, TTy.mem,
        TTy.parent, Node.normalized, TTy.isKeywordTy]

/-- C1 (amended): the splitter round-trips every stream whose running
split level never goes negative — the yielded statements flatten back to
exactly the input; and on the grouped side, splitting plus the full
39-pass pipeline preserves the leaves of `WITH foo AS (SELECT 1)`
exactly.  (When the level does go negative, tokens are dropped — see the
counterexample.) -/
theorem C1_round_trip :
    (∀ stream : List (TTy × String), levelsNonneg {} stream = true →
      ∃ out, runSplitter stream = .ok out ∧ leavesOut out = stream)
    ∧ (runParse withAsStream).map flatL = Except.ok withAsStream :=
  ⟨fun stream h => runSplitter_roundtrip stream h, rfl⟩

/-- Witness for C1: the hypothesis holds and the theorem applies on the
one-token whitespace stream. -/
theorem C1_round_trip_witness :
    levelsNonneg {} [wsTok] = true
      ∧ ∃ out, runSplitter [wsTok] = .ok out ∧ leavesOut out = [wsTok] :=
  ⟨by decide, C1_round_trip.1 [wsTok] (by decide)⟩

/-- C3 (amended): `StatementSplitter.process` never raises — it
completes on every input stream (extra closers included) — and the
`begin_depth` counter is the one clamped at zero by
`_change_splitlevel`; `self.level` itself is not clamped, and tokens
arriving while it is negative are dropped rather than kept (see the
counterexample). -/
theorem C3_never_raises :
    (∀ stream : List (TTy × String), ∃ out, runSplitter stream = .ok out)
    ∧ (∀ (s : SpFlags) (ty : TTy) (v : String), 0 ≤ s.begin_depth →
        0 ≤ ((changeSplitlevel s ty v).2).begin_depth) := by
  refine ⟨runSplitter_ok, ?_⟩
  intro s ty v h
  unfold changeSplitlevel
  by_cases h1 : ¬ ty.isKeywordTy
  · rw [if_pos h1]; exact h
  · rw [if_neg h1]
    repeat' split
    all_goals simp_all
    all_goals omega

/-- Witness for C3: the clamp hypothesis holds on the initial flags and
the theorem applies at an `END` keyword. -/
theorem C3_never_raises_witness :
    (0 : Int) ≤ ({} : SpFlags).begin_depth
      ∧ 0 ≤ ((changeSplitlevel {} TTy.Keyword "END").2).begin_depth :=
  ⟨by decide, C3_never_raises.2 {} TTy.Keyword "END" (by decide)⟩

end BSqlParse

namespace BSqlParse

set_option maxHeartbeats 2000000

/-- C7 (amended): for every flag state, token type and value, the delta
returned by `_change_splitlevel` is exactly the amended table's — the
claim's table with the `is_create ∧ begin_depth > 0` guard restored on
the whole `FOR`/`LOOP` row (the original claim exempted `LOOP` from the
guard; see the counterexample). -/
theorem C7_delta_table :
    ∀ (s : SpFlags) (ty : TTy) (v : String),
      (changeSplitlevel s ty v).1 = amendedDeltaC7 s ty v := by
  intro s ty v
  unfold changeSplitlevel amendedDeltaC7
  by_cases h1 : ¬ ty.isKeywordTy
  · rw [if_pos h1, if_pos h1]
  · rw [if_neg h1, if_neg h1]
    repeat' split
    all_goals simp_all

end BSqlParse

namespace BSqlParse

/-! ## Parent consistency of the mutation primitives (C8) -/


theorem wfAL_append (i : Nat) (a b : List ANode) :
    wfAL i (a ++ b) = (wfAL i a && wfAL i b) := by
  induction a with
  | nil => simp [wfAL]
  | cons c cs ih => simp [wfAL, ih, Bool.and_assoc]

theorem wfAL_take (i : Nat) (cs : List ANode) (n : Nat)
    (h : wfAL i cs = true) : wfAL i (cs.take n) = true := by
  have h2 := wfAL_append i (cs.take n) (cs.drop n)
  rw [List.take_append_drop, h] at h2
  have h3 := (Bool.and_eq_true (wfAL i (cs.take n))
    (wfAL i (cs.drop n))) ▸ h2.symm
  exact h3.1

theorem wfAL_drop (i : Nat) (cs : List ANode) (n : Nat)
    (h : wfAL i cs = true) : wfAL i (cs.drop n) = true := by
  have h2 := wfAL_append i (cs.take n) (cs.drop n)
  rw [List.take_append_drop, h] at h2
  have h3 := (Bool.and_eq_true (wfAL i (cs.take n))
    (wfAL i (cs.drop n))) ▸ h2.symm
  exact h3.2

theorem wfAL_mem (i : Nat) (cs : List ANode) (c : ANode)
    (h : wfAL i cs = true) (hm : c ∈ cs) :
    c.par = i ∧ wfA c = true := by
  induction cs with
  | nil => cases hm
  | cons d ds ih =>
    simp only [wfAL, Bool.and_eq_true, decide_eq_true_eq] at h
    rcases List.mem_cons.1 hm with rfl | hm'
    · exact ⟨h.1.1, h.1.2⟩
    · exact ih h.2 hm'

theorem aSetPar_par (i : Nat) (c : ANode) : (aSetPar i c).par = i := by
  cases c <;> rfl

theorem wfA_aSetPar (i : Nat) (c : ANode) :
    wfA (aSetPar i c) = wfA c := by
  cases c <;> rfl

theorem wfAL_map_setPar (i : Nat) (cs : List ANode)
    (h : ∀ c ∈ cs, wfA c = true) :
    wfAL i (cs.map (aSetPar i)) = true := by
  induction cs with
  | nil => rfl
  | cons d ds ih =>
    simp only [List.map_cons, wfAL, Bool.and_eq_true, decide_eq_true_eq]
    refine ⟨⟨aSetPar_par i d, ?_⟩, ih (fun c hc => h c (by simp [hc]))⟩
    rw [wfA_aSetPar]
    exact h d (by simp)

theorem wfAL_set (i : Nat) (cs : List ANode) (p : Nat) (x : ANode)
    (h : wfAL i cs = true) (hp : x.par = i) (hx : wfA x = true) :
    wfAL i (cs.set p x) = true := by
  induction cs generalizing p with
  | nil => simp [wfAL]
  | cons d ds ih =>
    simp only [wfAL, Bool.and_eq_true, decide_eq_true_eq] at h
    cases p with
    | zero =>
      simp only [List.set, wfAL, Bool.and_eq_true, decide_eq_true_eq]
      exact ⟨⟨hp, hx⟩, h.2⟩
    | succ n =>
      simp only [List.set, wfAL, Bool.and_eq_true, decide_eq_true_eq]
      exact ⟨h.1, ih n h.2⟩

theorem wfAL_aSlice (i : Nat) (cs : List ANode) (a b : Int)
    (h : wfAL i cs = true) : wfAL i (aSlice cs a b) = true := by
  unfold aSlice
  exact wfAL_drop i _ _ (wfAL_take i cs _ h)

theorem wfAL_aSliceAssign (i : Nat) (cs : List ANode) (a b : Int)
    (r : List ANode) (h : wfAL i cs = true) (hr : wfAL i r = true) :
    wfAL i (aSliceAssign cs a b r) = true := by
  unfold aSliceAssign
  rw [wfAL_append, wfAL_append]
  simp [wfAL_take i cs _ h, wfAL_drop i cs _ h, hr]

theorem aSlice_subset (cs : List ANode) (a b : Int) :
    aSlice cs a b ⊆ cs := by
  unfold aSlice
  intro x hx
  exact List.take_subset _ _ (List.drop_subset _ _ hx)

theorem aGet_mem (cs : List ANode) (i : Int) (c : ANode)
    (h : aGet cs i = .ok c) : c ∈ cs := by
  simp only [aGet] at h
  split at h
  all_goals split at h
  all_goals first
    | (injection h with h2; subst h2; exact List.get_mem _ _ _)
    | cases h

theorem wfA_grp_iff (p i : Nat) (k : GKind) (cs : List ANode) :
    wfA (ANode.grp p i k cs) = wfAL i cs := rfl

theorem applyAOp_wf (owner : Nat) (cs : List ANode) (op : AOp)
    (cs' : List ANode) (h : wfAL owner cs = true)
    (hop : aopWf op = true)
    (happ : applyAOp owner cs op = .ok cs') :
    wfAL owner cs' = true := by
  cases op with
  | ainsert pos t =>
    simp only [applyAOp] at happ
    injection happ with h2
    subst h2
    unfold aInsertBefore
    rw [wfAL_append, wfAL_append]
    simp only [aopWf] at hop
    simp [wfAL_take owner cs _ h, wfAL_drop owner cs _ h, wfAL,
      aSetPar_par, wfA_aSetPar, hop]
  | apop pos =>
    simp only [applyAOp, aPop] at happ
    cases hg : aGet cs pos with
    | error e => rw [hg] at happ; cases happ
    | ok c =>
      rw [hg] at happ
      simp only [except_ok_bind] at happ
      injection happ with h2
      subst h2
      exact wfAL_aSliceAssign owner cs _ _ [] h rfl
  | agroup k fresh start end? includeEnd extend =>
    simp only [applyAOp] at happ
    unfold aGroupTokens at happ
    cases hg : aGet cs start with
    | error e => rw [hg] at happ; cases happ
    | ok startTok =>
      rw [hg] at happ
      simp only [except_ok_bind] at happ
      have hst := wfAL_mem owner cs startTok h (aGet_mem cs start startTok hg)
      cases end? with
      | none => simp at happ; cases happ
      | some e =>
        simp only [except_ok_bind, pure_bind] at happ
        have hsliceAll : ∀ (a b : Int) c, c ∈ aSlice cs a b → wfA c = true :=
          fun a b c hc => (wfAL_mem owner cs c h (aSlice_subset cs a b hc)).2
        cases startTok with
        | tok p0 ty v =>
          simp only at happ
          injection happ with h2
          subst h2
          refine wfAL_aSliceAssign owner cs _ _ _ h ?_
          simp only [wfAL, Bool.and_eq_true, decide_eq_true_eq]
          exact ⟨⟨rfl, wfAL_map_setPar fresh _ (hsliceAll _ _)⟩, trivial⟩
        | grp p0 gid k' sub =>
          simp only at happ
          by_cases hext : (extend && pyIsinstance k' k) = true
          · rw [if_pos hext] at happ
            injection happ with h2
            subst h2
            have hgrp : wfA (ANode.grp p0 gid k'
                (sub ++ (aSlice cs (start + 1)
                  (e + if includeEnd then 1 else 0)).map (aSetPar gid)))
                = true := by
              rw [wfA_grp_iff, wfAL_append]
              have h1 : wfAL gid sub = true := hst.2
              simp [h1, wfAL_map_setPar gid _ (hsliceAll _ _)]
            refine wfAL_aSliceAssign owner _ _ _ [] ?_ rfl
            exact wfAL_set owner cs _ _ h hst.1 hgrp
          · rw [if_neg hext] at happ
            injection happ with h2
            subst h2
            refine wfAL_aSliceAssign owner cs _ _ _ h ?_
            simp only [wfAL, Bool.and_eq_true, decide_eq_true_eq]
            exact ⟨⟨rfl, wfAL_map_setPar fresh _ (hsliceAll _ _)⟩, trivial⟩

theorem applyAt_par (path : List Nat) (op : AOp) (t t' : ANode)
    (h : applyAt path op t = .ok t') : t'.par = t.par := by
  cases t with
  | tok p ty v => simp [applyAt] at h
  | grp p i k cs =>
    cases path with
    | nil =>
      simp only [applyAt] at h
      cases ha : applyAOp i cs op with
      | error e => rw [ha] at h; cases h
      | ok cs2 =>
        rw [ha] at h
        simp only [except_ok_bind] at h
        injection h with h2
        subst h2
        rfl
    | cons j rest =>
      simp only [applyAt] at h
      split at h
      · rename_i c hc
        cases ha : applyAt rest op c with
        | error e => rw [ha] at h; cases h
        | ok c2 =>
          rw [ha] at h
          simp only [except_ok_bind] at h
          injection h with h2
          subst h2
          rfl
      · cases h

theorem wfAL_get (i : Nat) (cs : List ANode) (j : Nat) (c : ANode)
    (h : wfAL i cs = true) (hg : cs.get? j = some c) :
    c.par = i ∧ wfA c = true :=
  wfAL_mem i cs c h (List.get?_mem hg)

theorem applyAt_wf (path : List Nat) (op : AOp) (t t' : ANode)
    (h : wfA t = true) (hop : aopWf op = true)
    (happ : applyAt path op t = .ok t') : wfA t' = true := by
  induction path generalizing t t' with
  | nil =>
    cases t with
    | tok p ty v => simp [applyAt] at happ
    | grp p i k cs =>
      simp only [applyAt] at happ
      cases ha : applyAOp i cs op with
      | error e => rw [ha] at happ; cases happ
      | ok cs2 =>
        rw [ha] at happ
        simp only [except_ok_bind] at happ
        injection happ with h2
        subst h2
        rw [wfA_grp_iff] at h ⊢
        exact applyAOp_wf i cs op cs2 h hop ha
  | cons j rest ih =>
    cases t with
    | tok p ty v => simp [applyAt] at happ
    | grp p i k cs =>
      simp only [applyAt] at happ
      split at happ
      · rename_i c hc
        cases ha : applyAt rest op c with
        | error e => rw [ha] at happ; cases happ
        | ok c2 =>
          rw [ha] at happ
          simp only [except_ok_bind] at happ
          injection happ with h2
          subst h2
          rw [wfA_grp_iff] at h ⊢
          have hco := wfAL_get i cs j c h hc
          refine wfAL_set i cs j c2 h ?_ ?_
          · rw [applyAt_par rest op c c2 ha]; exact hco.1
          · exact ih c c2 hco.2 ha
      · cases happ

theorem applyScript_wf (script : List (List Nat × AOp)) (t t' : ANode)
    (h : wfA t = true)
    (hops : ∀ po ∈ script, aopWf po.2 = true)
    (happ : applyScript script t = .ok t') : wfA t' = true := by
  induction script generalizing t with
  | nil =>
    simp only [applyScript] at happ
    injection happ with h2
    subst h2
    exact h
  | cons po rest ih =>
    simp only [applyScript] at happ
    cases ha : applyAt po.1 po.2 t with
    | error e => rw [ha] at happ; cases happ
    | ok t1 =>
      rw [ha] at happ
      simp only [except_ok_bind] at happ
      exact ih t1 (applyAt_wf po.1 po.2 t t1 h (hops po (by simp)) ha)
        (fun q hq => hops q (by simp [hq])) happ

/-- C8: parent consistency is an invariant of the tree mutations the
parser performs.  Every children-list edit of the splitter and of all 39
grouping passes is one of the `AOp` primitives applied at some node:
`group_tokens` (sql.py 358-386, both branches with their `setattr`
parent updates), `insert_before` (388-393) and `pop` (187-188), with
`sql.Statement(tokens)`/`TokenList.__init__` the `agroup` special case
that re-parents a whole list.  Hence any script of such edits, applied
anywhere in a parent-consistent tree (nodes it inserts being themselves
consistent), leaves a tree in which every child records its owner as
parent — each node sits in exactly one place of the pure tree. -/
theorem C8_parent_consistency :
    ∀ (script : List (List Nat × AOp)) (t t' : ANode),
      wfA t = true → (∀ po ∈ script, aopWf po.2 = true) →
      applyScript script t = .ok t' → wfA t' = true :=
  fun script t t' h hops happ => applyScript_wf script t t' h hops happ

/-- Witness for C8: a one-op script (wrap the only child of a Statement
into an Identifier group) applied to a concrete consistent tree. -/
theorem C8_parent_consistency_witness :
    wfA (ANode.grp 0 1 GKind.Statement [ANode.tok 1 TTy.Name "x"]) = true
    ∧ wfA (ANode.grp 0 1 GKind.Statement
        [ANode.grp 1 5 GKind.Identifier [ANode.tok 5 TTy.Name "x"]])
      = true :=
  ⟨by decide, C8_parent_consistency
    [([], AOp.agroup GKind.Identifier 5 0 (some 0) true false)]
    (ANode.grp 0 1 GKind.Statement [ANode.tok 1 TTy.Name "x"])
    (ANode.grp 0 1 GKind.Statement
      [ANode.grp 1 5 GKind.Identifier [ANode.tok 5 TTy.Name "x"]])
    (by decide) (by decide) rfl⟩

end BSqlParse

namespace BSqlParse

/-! ## Balanced delimiters of `_group_matching` groups (C4) -/


theorem gmDelimAllL_append (k : GKind) (a b : List Node) :
    gmDelimAllL k (a ++ b) = (gmDelimAllL k a && gmDelimAllL k b) := by
  induction a with
  | nil => simp [gmDelimAllL]
  | cons c cs ih => simp [gmDelimAllL, ih, Bool.and_assoc]

theorem matchM_tok {n : Node} {m : MSpec} (h : n.matchM m = true) :
    n.isGroup = false := by
  cases n with
  | tok ty v => rfl
  | grp k cs => simp [Node.matchM] at h

theorem gmDelimAll_tok (k : GKind) (ty : TTy) (v : String) :
    gmDelimAll k (Node.tok ty v) = true := rfl

mutual

theorem gm_delim_node (k : GKind) (t : Node)
    (hk : t.isKind k = false) (h : gmDelimAll k t = true) :
    gmDelimAll k (gmNode k t) = true := by
  cases t with
  | tok ty v => exact rfl
  | grp k' cs =>
    simp only [gmNode]
    simp only [gmDelimAll, Bool.and_eq_true] at h ⊢
    refine ⟨?_, ?_⟩
    · have hkk : (k' = k) = False := by
        simp only [Node.isKind] at hk
        simp [decide_eq_true_eq] at hk
        simp [hk]
      rw [if_neg (by simp [hkk])]
    · exact gm_delim_loop k cs [] [] rfl h.2 (List.Pairwise.nil)
        (fun o ho => absurd ho (List.not_mem_nil o))

theorem gm_delim_loop (k : GKind) (ts : List Node)
    (processed : List Node) (opens : List Nat)
    (hproc : gmDelimAllL k processed = true)
    (hts : gmDelimAllL k ts = true)
    (hP : List.Pairwise (· > ·) opens)
    (hO : ∀ o ∈ opens, ∃ nd, processed.get? o = some nd
        ∧ nd.matchM (gmOpenSpec k) = true) :
    gmDelimAllL k (gmLoop k processed opens ts) = true := by
  cases ts with
  | nil => simpa [gmLoop] using hproc
  | cons t rest =>
    simp only [gmDelimAllL, Bool.and_eq_true] at hts
    have hget_app : ∀ (x : Node) (o : Nat), o < processed.length →
        (processed ++ [x]).get? o = processed.get? o := by
      intro x o ho
      exact List.get?_append ho
    have hOlt : ∀ o ∈ opens, o < processed.length := by
      intro o ho
      obtain ⟨nd, hnd, _⟩ := hO o ho
      exact List.get?_eq_some.1 hnd |>.choose
    have happend : ∀ (x : Node), gmDelimAll k x = true →
        gmDelimAllL k (processed ++ [x]) = true := by
      intro x hx
      rw [gmDelimAllL_append]
      simp [hproc, gmDelimAllL, hx]
    have hOapp : ∀ (x : Node), ∀ o ∈ opens,
        ∃ nd, (processed ++ [x]).get? o = some nd
          ∧ nd.matchM (gmOpenSpec k) = true := by
      intro x o ho
      obtain ⟨nd, hnd, hm⟩ := hO o ho
      exact ⟨nd, by rw [hget_app x o (hOlt o ho)]; exact hnd, hm⟩
    simp only [gmLoop]
    by_cases hws : t.isWs = true
    · rw [if_pos hws]
      exact gm_delim_loop k rest (processed ++ [t]) opens
        (happend t hts.1) hts.2 hP (hOapp t)
    · rw [if_neg (by simp [hws])]
      by_cases hgr : (t.isGroup && ¬ t.isKind k) = true
      · rw [if_pos hgr]
        simp only [Bool.and_eq_true, decide_eq_true_eq] at hgr
        have hkk : t.isKind k = false := by
          cases hik : t.isKind k
          · rfl
          · exact absurd hik hgr.2
        exact gm_delim_loop k rest (processed ++ [gmNode k t]) opens
          (happend _ (gm_delim_node k t hkk hts.1)) hts.2 hP
          (hOapp _)
      · rw [if_neg hgr]
        by_cases hop : t.matchM (gmOpenSpec k) = true
        · rw [if_pos hop]
          refine gm_delim_loop k rest (processed ++ [t])
            (processed.length :: opens) (happend t hts.1) hts.2 ?_ ?_
          · exact List.pairwise_cons.2 ⟨fun o ho => hOlt o ho, hP⟩
          · intro o ho
            rcases List.mem_cons.1 ho with rfl | ho'
            · refine ⟨t, ?_, hop⟩
              rw [List.get?_append_right (le_refl _)]
              simp
            · exact hOapp t o ho'
        · rw [if_neg hop]
          by_cases hcl : t.matchM (gmCloseSpec k) = true
          · rw [if_pos hcl]
            cases opens with
            | nil =>
              exact gm_delim_loop k rest (processed ++ [t]) []
                (happend t hts.1) hts.2 List.Pairwise.nil
                (fun o ho => absurd ho (List.not_mem_nil o))
            | cons o os =>
              have holt : o < processed.length := hOlt o (by simp)
              obtain ⟨nd, hnd, hndm⟩ := hO o (by simp)
              have hnd9 : processed.get ⟨o, holt⟩ = nd := by
                have h2 := List.get?_eq_get (l := processed) holt
                rw [h2] at hnd
                injection hnd with h3
              have hdrop : processed.drop o = nd :: processed.drop (o + 1) := by
                rw [List.drop_eq_get_cons (l := processed) holt, hnd9]
              have hsplit := gmDelimAllL_append k (processed.take o)
                (processed.drop o)
              rw [List.take_append_drop, hproc] at hsplit
              have hparts := (Bool.and_eq_true _ _) ▸ hsplit.symm
              have hgrp : gmDelimAll k
                  (Node.grp k (processed.drop o ++ [t])) = true := by
                simp only [gmDelimAll, Bool.and_eq_true]
                constructor
                · rw [if_pos trivial]
                  have hhead : (processed.drop o ++ [t]).head? = some nd := by
                    rw [hdrop]; rfl
                  have hlast : (processed.drop o ++ [t]).getLast? = some t :=
                    List.getLast?_concat _
                  simp [hhead, hlast, hndm, hcl]
                · rw [gmDelimAllL_append]
                  simp [hparts.2, gmDelimAllL, hts.1]
              refine gm_delim_loop k rest
                (processed.take o ++ [Node.grp k (processed.drop o ++ [t])])
                os ?_ hts.2 (List.pairwise_cons.1 hP).2 ?_
              · rw [gmDelimAllL_append]
                simp [hparts.1, gmDelimAllL, hgrp]
              · intro e he
                have helt : e < o := (List.pairwise_cons.1 hP).1 e he
                obtain ⟨nd2, hnd2, hm2⟩ := hO e (by simp [he])
                refine ⟨nd2, ?_, hm2⟩
                rw [List.get?_append (by
                  rw [List.length_take]
                  omega)]
                rw [List.get?_take helt]
                exact hnd2
          · rw [if_neg hcl]
            exact gm_delim_loop k rest (processed ++ [t]) opens
              (happend t hts.1) hts.2 hP (hOapp t)

end

/-- C4 (amended): the groups `_group_matching` builds are properly
delimited — for every class `k` it handles (Parenthesis,
SquareBrackets, Case, If, Begin, ...), running the pass on a node that
is not itself of class `k` and whose existing `k`-groups are
well-delimited yields a tree in which every `k`-group's first child
matches `M_OPEN` and its last child matches `M_CLOSE` (each close is
matched against the innermost pending open of the same list).  The
original claim fails for the tree as a whole because later passes
violate this: group_where swallows a Case's `END` (see the
counterexample). -/
theorem C4_matching_delims :
    ∀ (k : GKind) (n : Node), n.isKind k = false →
      gmDelimAll k n = true → gmDelimAll k (gmNode k n) = true :=
  fun k n hk h => gm_delim_node k n hk h

/-- Witness for C4: the Parenthesis pass on a concrete flat statement
`( x )`, with both hypotheses discharged by evaluation. -/
theorem C4_matching_delims_witness :
    (Node.grp .Statement [Node.tok .Punctuation "(",
      Node.tok .Name "x", Node.tok .Punctuation ")"]).isKind
        GKind.Parenthesis = false
    ∧ gmDelimAll GKind.Parenthesis
        (gmNode GKind.Parenthesis (Node.grp .Statement
          [Node.tok .Punctuation "(", Node.tok .Name "x",
           Node.tok .Punctuation ")"])) = true :=
  ⟨by decide, C4_matching_delims GKind.Parenthesis
    (Node.grp .Statement [Node.tok .Punctuation "(",
      Node.tok .Name "x", Node.tok .Punctuation ")"])
    (by decide) (by decide)⟩

end BSqlParse
